import Mathlib

/-! # VELOS AI v1.5 (`ai.js`): the context / answer selection pipeline

A shallow embedding of the functions of `ai.js` and theorems about them.

Modelling conventions.

* A JavaScript string is the list of its UTF-16 code units (`Str`).
* `String.prototype.toLowerCase` is fixed by the language on ASCII-only
  strings; on any other string it is given by the Unicode case tables of the
  runtime, which are taken as a parameter `uni`.
* `/\s/` and `trim` use the ECMAScript white space and line terminator set.
* The global `contextDataset` is a parameter `kb`.
* The quotient of two array lengths is an exact rational number.
* `Math.random()` is a draw from an explicit source; a draw is any double of
  `[0, 1)`, written `man / 2 ^ exp`, and `Math.floor(r * n)` is computed as
  the code does: the product is rounded to the nearest double, ties to even,
  and then floored.
* `undefined` is `none`; a thrown `TypeError` is `Except.error`.
-/

namespace Velos

/-- A JavaScript string, as its sequence of UTF-16 code units. -/
abbrev Str := List Nat

/-- The UTF-16 code units of one Unicode scalar value. -/
def unitsOfChar (c : Char) : Str :=
  if c.toNat < 65536 then [c.toNat]
  else [55296 + (c.toNat - 65536) / 1024, 56320 + (c.toNat - 65536) % 1024]

/-- The JavaScript string written as a string literal. -/
def js (s : String) : Str :=
  s.toList.flatMap unitsOfChar

/-! ## Character classes -/

/-- The class `\s` of a regular expression without the `u` flag, which is also
the set of code units removed by `trim`: white space and line terminators. -/
def isSpace (c : Nat) : Bool :=
  (9 ≤ c && c ≤ 13) || c == 32 || c == 160 || c == 5760 ||
  (8192 ≤ c && c ≤ 8202) || c == 8232 || c == 8233 || c == 8239 ||
  c == 8287 || c == 12288 || c == 65279

/-- The class `\w`: `[A-Za-z0-9_]`. -/
def isWord (c : Nat) : Bool :=
  (48 ≤ c && c ≤ 57) || (65 ≤ c && c ≤ 90) || c == 95 || (97 ≤ c && c ≤ 122)

/-- An ASCII capital letter. -/
def isUpper (c : Nat) : Bool :=
  65 ≤ c && c ≤ 90

/-- Lower-casing of one ASCII code unit. -/
def lowerUnit (c : Nat) : Nat :=
  if isUpper c then c + 32 else c

/-! ## String primitives -/

/-- The method `toLowerCase`: on an ASCII-only string the letters `A-Z` become
`a-z`; any other string is mapped by the Unicode case tables `uni`. -/
def toLowerCase (uni : Str → Str) (s : Str) : Str :=
  if s.all (fun c => decide (c < 128)) then s.map lowerUnit else uni s

/-- The call `replace(/[^\w\s]/g, "")`: every code unit outside `\w` and `\s`
is deleted. -/
def stripNonWord (s : Str) : Str :=
  s.filter (fun c => isWord c || isSpace c)

/-- The method `trim`. -/
def trim (s : Str) : Str :=
  ((s.dropWhile isSpace).reverse.dropWhile isSpace).reverse

/-- The scan of `split(/\s+/)`: `cur` is the piece being read (reversed) and
`inRun` tells that the previous code unit was white space. -/
def splitGo : Bool → Str → Str → List Str
  | _, cur, [] => [cur.reverse]
  | inRun, cur, c :: cs =>
    if isSpace c then
      if inRun then splitGo true cur cs
      else cur.reverse :: splitGo true [] cs
    else splitGo false (c :: cur) cs

/-- The call `split(/\s+/)`: the pieces between maximal runs of white space;
a leading or trailing run gives an empty first or last piece, and the empty
string gives one empty piece. -/
def splitWs (s : Str) : List Str :=
  splitGo false [] s

/-- The method `includes` on strings: `t` occurs in `s` as a substring. -/
def includes (s t : Str) : Bool :=
  s.tails.any (fun u => t.isPrefixOf u)

/-- The call `endsWith("?")`. -/
def endsWithQuestionMark (s : Str) : Bool :=
  s.getLast? == some 63

/-! ## Text utilities (`ai.js` lines 19-36) -/

/-- The function `normalizeText`. -/
def normalizeText (uni : Str → Str) (text : Str) : Str :=
  trim (stripNonWord (toLowerCase uni text))

/-- The array `greetings` of `isGreeting`. -/
def greetings : List Str :=
  [js "hi", js "hello", js "hey", js "good morning", js "good afternoon",
   js "good evening"]

/-- The function `isGreeting`. -/
def isGreeting (uni : Str → Str) (input : Str) : Bool :=
  greetings.contains (normalizeText uni input)

/-- The function `isQuestion`. -/
def isQuestion (input : Str) : Bool :=
  endsWithQuestionMark (trim input)

/-! ## Levenshtein distance (`ai.js` lines 41-63) -/

/-- The inner loop over `j` for one row `i` of the matrix. `bc` is
`b.charAt(i - 1)`, the list `as` holds `a.charAt(j - 1)` onwards, `diag` is
`matrix[i - 1][j - 1]`, `up` holds `matrix[i - 1][j]` onwards and `left` is
`matrix[i][j - 1]`. The result is `matrix[i][j]` onwards. -/
def rowGo (bc : Nat) : Str → Nat → List Nat → Nat → List Nat
  | ac :: as, diag, u :: up, left =>
    let v := if bc = ac then diag else min (diag + 1) (min (left + 1) (u + 1))
    v :: rowGo bc as u up v
  | _, _, _, _ => []

/-- Row `i` of the matrix from row `i - 1`: `matrix[i][0] = i`, then the
inner loop. -/
def nextRow (a : Str) (bc : Nat) (i : Nat) (prev : List Nat) : List Nat :=
  match prev with
  | [] => [i]
  | d :: up => i :: rowGo bc a d up i

/-- The outer loop over `i`: from row `i` and the rest of `b` to the last
row. -/
def rowsGo (a : Str) : Str → Nat → List Nat → List Nat
  | [], _, row => row
  | bc :: bs, i, row => rowsGo a bs (i + 1) (nextRow a bc (i + 1) row)

/-- The function `levenshteinDistance`: row 0 is `[0, 1, ..., a.length]`, the
rows are filled in order and the result is `matrix[b.length][a.length]`. -/
def levenshteinDistance (a b : Str) : Nat :=
  (rowsGo a b 0 (List.range (a.length + 1))).getD a.length 0

/-- The Levenshtein distance by its recursive definition: insertion, deletion
and substitution cost 1 each. -/
def levSpec : Str → Str → Nat
  | [], b => b.length
  | a, [] => a.length
  | x :: a, y :: b =>
    if x = y then levSpec a b
    else 1 + min (levSpec a b) (min (levSpec a (y :: b)) (levSpec (x :: a) b))

/-- Edit scripts: `Ed a b n` holds when `a` is turned into `b` by deletions,
insertions and substitutions, `n` of them in all; equal code units are kept
at no cost. -/
inductive Ed : Str → Str → Nat → Prop
  | nil : Ed [] [] 0
  | del (x : Nat) {a b : Str} {n : Nat} : Ed a b n → Ed (x :: a) b (n + 1)
  | ins (y : Nat) {a b : Str} {n : Nat} : Ed a b n → Ed a (y :: b) (n + 1)
  | sub (x y : Nat) {a b : Str} {n : Nat} : Ed a b n → Ed (x :: a) (y :: b) (n + 1)
  | keep (x : Nat) {a b : Str} {n : Nat} : Ed a b n → Ed (x :: a) (x :: b) n

/-- The entries `matrix[i][j + 1], matrix[i][j + 2], ...` of the row of the
matrix for a prefix of `b` whose reverse is `rb`, where `ra` is the reverse of
the first `j` code units of `a` and `as` is the rest of `a`. -/
def rowSpec (rb : Str) : Str → Str → List Nat
  | _, [] => []
  | ra, ac :: as => levSpec (ac :: ra) rb :: rowSpec rb (ac :: ra) as

/-! ## Knowledge base (`context.json`) -/

/-- One stored question with its answer. -/
structure ConversationPair where
  /-- The field `Question`. -/
  Question : Str
  /-- The field `Answer`. -/
  Answer : Str
deriving DecidableEq, Repr

/-- One entry of the knowledge base. -/
structure ContextEntry where
  /-- The field `Query`. -/
  Query : Str
  /-- The field `Conversation`. -/
  Conversation : List ConversationPair
deriving DecidableEq, Repr

/-! ## Errors and the random source -/

/-- The exceptions the program can raise. -/
inductive JsError where
  | typeError
deriving DecidableEq, Repr

/-- One result of `Math.random()`: a double of `[0, 1)`. Its value is
`man / 2 ^ exp`; the doubles of `[0, 1)` are the numbers of this form with a
significand `man` below `2 ^ 53` and an exponent `exp` of at most 1074. -/
structure Draw where
  /-- The significand. -/
  man : Nat
  /-- The negated binary exponent. -/
  exp : Nat
  /-- The significand has at most 53 bits. -/
  man_lt : man < 2 ^ 53
  /-- The exponent is in the range of the doubles. -/
  exp_le : exp ≤ 1074
  /-- The draw is below 1. -/
  lt_one : man < 2 ^ exp

/-- Rounding of a product to a double, on the numerator `N` of `N / 2 ^ exp`:
the nearest integer to `N` with at most 53 significant bits, ties to the one
with an even significand. Below `2 ^ 53` the product is a double already;
otherwise the last `s` bits are rounded away, where the leading bit of `N` has
position `s + 52`. -/
def roundDouble (N : Nat) : Nat :=
  if N < 2 ^ 53 then N
  else
    let s := Nat.log2 N - 52
    let q := N / 2 ^ s
    let rem := N % 2 ^ s
    let half := 2 ^ (s - 1)
    if rem > half ∨ (rem = half ∧ q % 2 = 1) then (q + 1) * 2 ^ s else q * 2 ^ s

/-- The expression `Math.floor(Math.random() * n)` for the draw `r`, where `n`
is the length of an array (an integer below `2 ^ 32`, hence a double): the
product `man * n / 2 ^ exp` is rounded to a double and then floored. -/
def Draw.pick (r : Draw) (n : Nat) : Nat :=
  roundDouble (r.man * n) / 2 ^ r.exp

/-- The random source: the sequence of the results of `Math.random()`. A
function that draws takes the position `k` of the next draw and returns the
position after its last draw. -/
abbrev Rand := Nat → Draw

/-! ## Markov chain (`ai.js` lines 68-107) -/

/-- The own properties of the object `model`, in insertion order. -/
abbrev Model := List (Str × List Str)

/-- The property names that an object literal inherits from
`Object.prototype`. -/
def protoKeys : List Str :=
  [js "constructor", js "__defineGetter__", js "__defineSetter__",
   js "hasOwnProperty", js "__lookupGetter__", js "__lookupSetter__",
   js "isPrototypeOf", js "propertyIsEnumerable", js "toString", js "valueOf",
   js "__proto__", js "toLocaleString"]

/-- The value of `model[key]`: an array stored by the program, a value
inherited from `Object.prototype` (truthy, and not an array), or
`undefined`. -/
inductive Lookup where
  | own (arr : List Str)
  | inherited
  | absent
deriving DecidableEq, Repr

/-- The expression `model[key]`. -/
def getProp (model : Model) (key : Str) : Lookup :=
  match model.lookup key with
  | some arr => Lookup.own arr
  | none => if protoKeys.contains key then Lookup.inherited else Lookup.absent

/-- The statements `if (!model[word]) model[word] = []` and
`model[word].push(nextWord)` when `model[word]` is not inherited. -/
def pushWord (word nextWord : Str) : Model → Model
  | [] => [(word, [nextWord])]
  | (key, arr) :: rest =>
    if key = word then (key, arr ++ [nextWord]) :: rest
    else (key, arr) :: pushWord word nextWord rest

/-- One iteration of the loop of `buildMarkovModel`. When `model[word]` is
inherited it is truthy, no array is stored, and the call of `push` on it
raises a `TypeError`. -/
def buildStep (uni : Str → Str) (model : Model) (w : Str × Str) :
    Except JsError Model :=
  let word := toLowerCase uni w.1
  let nextWord := toLowerCase uni w.2
  match getProp model word with
  | Lookup.inherited => Except.error JsError.typeError
  | _ => Except.ok (pushWord word nextWord model)

/-- The loop of `buildMarkovModel` over the pairs `(words[i], words[i + 1])`. -/
def buildGo (uni : Str → Str) : Model → List (Str × Str) → Except JsError Model
  | model, [] => Except.ok model
  | model, w :: ws =>
    match buildStep uni model w with
    | Except.error e => Except.error e
    | Except.ok model1 => buildGo uni model1 ws

/-- The function `buildMarkovModel`. -/
def buildMarkovModel (uni : Str → Str) (text : Str) : Except JsError Model :=
  let words := splitWs text
  buildGo uni [] (words.zip words.tail)

/-- The loop of `generateDynamicResponse`, with `n` iterations left, the next
draw at position `k` and the array `response` so far. An element of
`response` is `none` when it is `undefined`. -/
def walk (uni : Str → Str) (model : Model) (g : Rand) :
    Nat → Nat → List (Option Str) → Except JsError (List (Option Str) × Nat)
  | 0, k, response => Except.ok (response, k)
  | n + 1, k, response =>
    match response.getLast? with
    | some (some last) =>
      match getProp model (toLowerCase uni last) with
      | Lookup.own nextWords =>
        walk uni model g n (k + 1)
          (response ++ [nextWords.get? ((g k).pick nextWords.length)])
      | Lookup.inherited => walk uni model g n (k + 1) (response ++ [none])
      | Lookup.absent => Except.ok (response, k)
    | _ => Except.error JsError.typeError

/-- The call `response.join(" ")`: an `undefined` element is written as the
empty string. -/
def joinSpace (response : List (Option Str)) : Str :=
  List.intercalate [32] (response.map (fun w => w.getD []))

/-- The function `generateDynamicResponse`, drawing from position `k` on. -/
def generateDynamicResponse (uni : Str → Str) (g : Rand) (k : Nat)
    (baseResponse : Str) : Except JsError (Str × Nat) :=
  match buildMarkovModel uni baseResponse with
  | Except.error e => Except.error e
  | Except.ok model =>
    let words := splitWs baseResponse
    match walk uni model g (words.length - 1) k [words.head?] with
    | Except.error e => Except.error e
    | Except.ok (response, k1) => Except.ok (joinSpace response ++ [46], k1)

/-- Lines 83-94 of `generateDynamicResponse`: the array `response` when the
loop is left, before it is joined, and the position of the next draw. Its
elements are the emitted words. -/
def responseArray (uni : Str → Str) (g : Rand) (k : Nat)
    (baseResponse : Str) : Except JsError (List (Option Str) × Nat) :=
  match buildMarkovModel uni baseResponse with
  | Except.error e => Except.error e
  | Except.ok model =>
    let words := splitWs baseResponse
    walk uni model g (words.length - 1) k [words.head?]

/-- The function `generateMultipleDynamicResponses`. -/
def generateMultipleDynamicResponses (uni : Str → Str) (g : Rand)
    (baseResponse : Str) : Nat → Nat → Except JsError (List Str × Nat)
  | 0, k => Except.ok ([], k)
  | numCandidates + 1, k =>
    match generateDynamicResponse uni g k baseResponse with
    | Except.error e => Except.error e
    | Except.ok (c, k1) =>
      match generateMultipleDynamicResponses uni g baseResponse numCandidates k1 with
      | Except.error e => Except.error e
      | Except.ok (cs, k2) => Except.ok (c :: cs, k2)

/-! ## Jaccard similarity and re-ranking (`ai.js` lines 112-134) -/

/-- The method `add` of a `Set`: a new element goes last, a known one is
ignored. -/
def setAdd (acc : List Str) (x : Str) : List Str :=
  if acc.contains x then acc else acc ++ [x]

/-- The expression `new Set(xs)`: the distinct elements of `xs` in the order of
their first occurrence. -/
def newSet (xs : List Str) : List Str :=
  xs.foldl setAdd []

/-- The function `jaccardSimilarity`. -/
def jaccardSimilarity (uni : Str → Str) (text1 text2 : Str) : ℚ :=
  let tokens1 := newSet (splitWs (normalizeText uni text1))
  let tokens2 := newSet (splitWs (normalizeText uni text2))
  let intersection := newSet (tokens1.filter (fun x => tokens2.contains x))
  let union := newSet (tokens1 ++ tokens2)
  if union.length = 0 then 0 else (intersection.length : ℚ) / (union.length : ℚ)

/-- The callback of `candidates.forEach` in `chooseBestCandidate`, on the pair
`(bestCandidate, bestScore)`. -/
def bestStep (uni : Str → Str) (baseResponse : Str) (best : Option Str × ℚ)
    (candidate : Str) : Option Str × ℚ :=
  let score := jaccardSimilarity uni candidate baseResponse
  if score > best.2 then (some candidate, score) else best

/-- The function `chooseBestCandidate`; the result is `none` when it is
`undefined`. -/
def chooseBestCandidate (uni : Str → Str) (candidates : List Str)
    (baseResponse : Str) : Option Str :=
  (candidates.foldl (bestStep uni baseResponse) (candidates.head?, 0)).1

/-! ## Context selection (`ai.js` lines 139-182) -/

/-- The score computed in the loop body of `selectContextByPossibility` for
one entry. -/
def possibility (uni : Str → Str) (userInput : Str) (contextItem : ContextEntry) : ℚ :=
  let normalizedInput := normalizeText uni userInput
  let normalizedQuery := normalizeText uni contextItem.Query
  if includes normalizedInput normalizedQuery then 1
  else
    let tokensInput := splitWs normalizedInput
    let tokensQuery := splitWs normalizedQuery
    let common := tokensQuery.filter (fun token =>
      tokensInput.any (fun t => t == token || includes t token || includes token t))
    (common.length : ℚ) / (tokensQuery.length : ℚ)

/-- Insertion of `x` in a list sorted by `(a, b) => b.possibility - a.possibility`,
before the first element that the comparator does not put before `x`. -/
def sortInsert (x : ContextEntry × ℚ) : List (ContextEntry × ℚ) → List (ContextEntry × ℚ)
  | [] => [x]
  | y :: ys => if y.2 ≤ x.2 then x :: y :: ys else y :: sortInsert x ys

/-- The call `possibilities.sort((a, b) => b.possibility - a.possibility)`.
The sort of an array is stable, and the comparator is a consistent order on
numbers, so the result is the one of any stable sort; insertion sort is
used. -/
def sortByPossibility : List (ContextEntry × ℚ) → List (ContextEntry × ℚ)
  | [] => []
  | x :: xs => sortInsert x (sortByPossibility xs)

/-- The function `getLargestQueryContext`; on an empty knowledge base `reduce`
returns its initial value `contextDataset[0]`, which is `undefined`. -/
def getLargestQueryContext (kb : List ContextEntry) : Option ContextEntry :=
  match kb.head? with
  | none => none
  | some first =>
    some (kb.foldl (fun maxContext context =>
      if context.Conversation.length > maxContext.Conversation.length then context
      else maxContext) first)

/-- The function `selectContextByPossibility`. -/
def selectContextByPossibility (uni : Str → Str) (kb : List ContextEntry)
    (userInput : Str) : Option ContextEntry :=
  let greetingContext :=
    if isGreeting uni userInput then
      kb.find? (fun item => normalizeText uni item.Query == js "greetings")
    else none
  match greetingContext with
  | some item => some item
  | none =>
    let possibilities :=
      sortByPossibility (kb.map (fun contextItem =>
        (contextItem, possibility uni userInput contextItem)))
    match possibilities with
    | top :: _ => if top.2 ≥ 1 / 2 then some top.1 else getLargestQueryContext kb
    | [] => getLargestQueryContext kb

/-! ## Pair selection and the pipeline (`ai.js` lines 187-225) -/

/-- The distance computed in the loop body of `findBestConversationPair` for
one pair. -/
def pairDistance (uni : Str → Str) (userInput : Str) (pair : ConversationPair) : Nat :=
  levenshteinDistance (normalizeText uni userInput) (normalizeText uni pair.Question)

/-- The test `distance < bestDistance`, where `none` is `Infinity`. -/
def ltBest (distance : Nat) : Option Nat → Bool
  | none => true
  | some best => decide (distance < best)

/-- The loop body of `findBestConversationPair` on the pair
`(bestPair, bestDistance)`. -/
def pairStep (uni : Str → Str) (normalizedInput : Str)
    (best : Option ConversationPair × Option Nat) (pair : ConversationPair) :
    Option ConversationPair × Option Nat :=
  let distance := levenshteinDistance normalizedInput (normalizeText uni pair.Question)
  if ltBest distance best.2 then (some pair, some distance) else best

/-- The function `findBestConversationPair`: `bestPair` is `none` when it is
`null` and `bestDistance` is `none` when it is `Infinity`. -/
def findBestConversationPair (uni : Str → Str) (contextItem : ContextEntry)
    (userInput : Str) : Option ConversationPair × Option Nat :=
  contextItem.Conversation.foldl (pairStep uni (normalizeText uni userInput)) (none, none)

/-- The random choice of `getResponseFromContext`:
`Conversation[Math.floor(Math.random() * Conversation.length)]`. -/
def randomPair (g : Rand) (k : Nat) (selectedContext : ContextEntry) :
    Option ConversationPair :=
  selectedContext.Conversation.get? ((g k).pick selectedContext.Conversation.length)

/-- Lines 207-220 of `getResponseFromContext`: the value of `chosenPair`
(`none` when `undefined`) and the position of the next draw. Reading
`Conversation` of an `undefined` context raises a `TypeError`. -/
def choosePair (uni : Str → Str) (kb : List ContextEntry) (g : Rand) (k : Nat)
    (userInput : Str) : Except JsError (Option ConversationPair × Nat) :=
  match selectContextByPossibility uni kb userInput with
  | none => Except.error JsError.typeError
  | some selectedContext =>
    if isQuestion userInput then
      match findBestConversationPair uni selectedContext userInput with
      | (some bestPair, some bestDistance) =>
        if bestDistance ≤ 5 then Except.ok (some bestPair, k)
        else Except.ok (randomPair g k selectedContext, k + 1)
      | _ => Except.ok (randomPair g k selectedContext, k + 1)
    else Except.ok (randomPair g k selectedContext, k + 1)

/-- The function `getResponseFromContext`: the reply (`none` when `undefined`)
and the position of the next draw. -/
def getResponseFromContext (uni : Str → Str) (kb : List ContextEntry) (g : Rand)
    (k : Nat) (userInput : Str) : Except JsError (Option Str × Nat) :=
  match choosePair uni kb g k userInput with
  | Except.error e => Except.error e
  | Except.ok (none, _) => Except.error JsError.typeError
  | Except.ok (some chosenPair, k1) =>
    let baseAnswer := chosenPair.Answer
    match generateMultipleDynamicResponses uni g baseAnswer 5 k1 with
    | Except.error e => Except.error e
    | Except.ok (candidates, k2) =>
      Except.ok (chooseBestCandidate uni candidates baseAnswer, k2)

/-! ## Concrete parameters for evaluations -/

/-- Case tables that change the ASCII letters only; every string used in an
evaluation below is ASCII, where `toLowerCase` does not consult the tables. -/
def asciiTables : Str → Str :=
  List.map lowerUnit

/-- The random source whose every draw is the double `man / 2 ^ exp`. -/
def constRand (man exp : Nat) (h : man < 2 ^ 53 ∧ exp ≤ 1074 ∧ man < 2 ^ exp) : Rand :=
  fun _ => ⟨man, exp, h.1, h.2.1, h.2.2⟩

/-- The double nearest to one third, `6004799503160661 / 2 ^ 54`. -/
def thirdDraw : Draw :=
  ⟨6004799503160661, 54, by decide, by decide, by decide⟩

/-! ## The score in the words of the specification -/

/-- The score of an entry in the words of the specification: 1 when the
normalized input contains the normalized query as a substring, and otherwise
the number of query tokens that equal, contain or are contained in some input
token, divided by the number of query tokens. -/
def possibilitySpec (uni : Str → Str) (userInput : Str) (contextItem : ContextEntry) : ℚ :=
  let normalizedInput := normalizeText uni userInput
  let normalizedQuery := normalizeText uni contextItem.Query
  if normalizedQuery <:+: normalizedInput then 1
  else
    (((splitWs normalizedQuery).countP (fun token =>
      decide (∃ t ∈ splitWs normalizedInput, t = token ∨ token <:+: t ∨ t <:+: token)) : ℕ) : ℚ) /
      ((splitWs normalizedQuery).length : ℚ)

/-! ## A small knowledge base for evaluations -/

/-- An entry about the weather, with one pair. -/
def weatherEntry : ContextEntry :=
  { Query := js "Weather",
    Conversation := [⟨js "Is it sunny?", js "It is sunny today"⟩] }

/-- The greetings entry, with two pairs. -/
def greetingsEntry : ContextEntry :=
  { Query := js "Greetings",
    Conversation := [⟨js "hi", js "hello there"⟩, ⟨js "How are you?", js "I am fine"⟩] }

/-- An entry with a query of two tokens, with one pair. -/
def sportsEntry : ContextEntry :=
  { Query := js "Sports news",
    Conversation := [⟨js "Who won?", js "The home team won"⟩] }

/-- An entry with a query of one token, with two pairs. -/
def newsEntry : ContextEntry :=
  { Query := js "news",
    Conversation := [⟨js "Any news?", js "No news today"⟩, ⟨js "What is new?", js "Nothing"⟩] }

/-- An entry with two questions that are equal after normalization. -/
def smalltalkEntry : ContextEntry :=
  { Query := js "Smalltalk",
    Conversation := [⟨js "How are you?", js "Fine"⟩, ⟨js "how are you", js "Great"⟩] }

/-- The knowledge base made of the four entries above. -/
def demoKb : List ContextEntry :=
  [weatherEntry, greetingsEntry, sportsEntry, newsEntry]

/-! ## The successor relation of a seed text -/

/-- The word `next` is the lower-case form of a word that comes right after an
occurrence of `prev` in the seed, occurrences being compared in lower case. -/
def follows (uni : Str → Str) (seed prev next : Str) : Prop :=
  ∃ w ∈ (splitWs seed).zip (splitWs seed).tail,
    toLowerCase uni w.1 = toLowerCase uni prev ∧ next = toLowerCase uni w.2

/-- Every array of the model is non-empty and holds lower-case successors of
its key among the pairs `ps`. -/
def ModelOk (uni : Str → Str) (ps : List (Str × Str)) (model : Model) : Prop :=
  ∀ key arr, model.lookup key = some arr →
    arr ≠ [] ∧ ∀ x ∈ arr, ∃ w ∈ ps, toLowerCase uni w.1 = key ∧ x = toLowerCase uni w.2

/-! ## Further knowledge bases for evaluations -/

/-- The knowledge base of the end-to-end scenario: one entry `"Greetings"` with
the pair `("hi", "hello there")`. -/
def scenarioKb : List ContextEntry :=
  [{ Query := js "Greetings", Conversation := [⟨js "hi", js "hello there"⟩] }]

/-- An entry without pairs. -/
def silentEntry : ContextEntry :=
  { Query := js "Silence", Conversation := [] }

/-- An entry whose query is made of punctuation only. -/
def blankEntry : ContextEntry :=
  { Query := js "?!",
    Conversation := [⟨js "What?", js "Nothing to say"⟩] }

/-! # Theorems -/

/-! ## First elements of lists -/

theorem exists_first_of_exists {α : Type} (P : α → Prop) (l : List α) (h : ∃ c ∈ l, P c) :
    ∃ pre e post, l = pre ++ e :: post ∧ P e ∧ ∀ c ∈ pre, ¬ P c := by
  induction l with
  | nil => obtain ⟨c, hc, _⟩ := h; cases hc
  | cons x l ih =>
    by_cases hx : P x
    · refine ⟨[], x, l, rfl, hx, ?_⟩
      intro c hc
      cases hc
    · obtain ⟨c, hc, hP⟩ := h
      have hcl : c ∈ l := by
        rcases List.mem_cons.mp hc with rfl | hcl
        · exact absurd hP hx
        · exact hcl
      obtain ⟨pre, e, post, hl, he, hpre⟩ := ih ⟨c, hcl, hP⟩
      refine ⟨x :: pre, e, post, by rw [hl, List.cons_append], he, ?_⟩
      intro d hd
      rcases List.mem_cons.mp hd with rfl | hd
      · exact hx
      · exact hpre d hd

theorem exists_first_max {α β : Type} [LinearOrder β] (f : α → β) (l : List α) (hl : l ≠ []) :
    ∃ pre e post, l = pre ++ e :: post ∧ (∀ c ∈ pre, f c < f e) ∧ (∀ c ∈ post, f c ≤ f e) := by
  induction l with
  | nil => exact absurd rfl hl
  | cons x l ih =>
    by_cases hnil : l = []
    · subst hnil
      refine ⟨[], x, [], rfl, ?_, ?_⟩ <;> intro c hc <;> cases hc
    · obtain ⟨pre, e, post, hdec, hpre, hpost⟩ := ih hnil
      by_cases hx : f e ≤ f x
      · refine ⟨[], x, l, rfl, ?_, ?_⟩
        · intro c hc
          cases hc
        intro c hc
        rw [hdec, List.mem_append, List.mem_cons] at hc
        rcases hc with hc | rfl | hc
        · exact (le_of_lt (hpre c hc)).trans hx
        · exact hx
        · exact (hpost c hc).trans hx
      · refine ⟨x :: pre, e, post, by rw [hdec, List.cons_append], ?_, hpost⟩
        intro c hc
        rcases List.mem_cons.mp hc with rfl | hc
        · exact not_le.mp hx
        · exact hpre c hc

theorem exists_first_min {α β : Type} [LinearOrder β] (f : α → β) (l : List α) (hl : l ≠ []) :
    ∃ pre e post, l = pre ++ e :: post ∧ (∀ c ∈ pre, f e < f c) ∧ (∀ c ∈ post, f e ≤ f c) :=
  @exists_first_max α βᵒᵈ _ (fun c => OrderDual.toDual (f c)) l hl

/-! ## Levenshtein distance -/

theorem lev_nil_left (b : Str) : levSpec [] b = b.length := by
  simp [levSpec]

theorem lev_nil_right (a : Str) : levSpec a [] = a.length := by
  cases a <;> simp [levSpec]

theorem lev_cons_cons (x y : Nat) (a b : Str) :
    levSpec (x :: a) (y :: b) =
      if x = y then levSpec a b
      else 1 + min (levSpec a b) (min (levSpec a (y :: b)) (levSpec (x :: a) b)) := by
  simp [levSpec]

theorem lev_step_aux (n : Nat) : ∀ a b : Str, a.length + b.length ≤ n →
    (∀ x, levSpec (x :: a) b ≤ levSpec a b + 1 ∧ levSpec a b ≤ levSpec (x :: a) b + 1) ∧
    (∀ y, levSpec a (y :: b) ≤ levSpec a b + 1 ∧ levSpec a b ≤ levSpec a (y :: b) + 1) := by
  induction n with
  | zero =>
    intro a b h
    have ha : a = [] := by cases a <;> simp_all
    have hb : b = [] := by cases b <;> simp_all
    subst ha hb
    simp [levSpec]
  | succ n ih =>
    intro a b h
    refine ⟨fun x => ?_, fun y => ?_⟩
    · cases b with
      | nil => simp only [lev_nil_right, List.length_cons]; omega
      | cons y b =>
        have h1 := ih a b (by simp at h; omega)
        have h2 := h1.1 x
        have h3 := h1.2 y
        rw [lev_cons_cons]
        split <;> constructor <;> omega
    · cases a with
      | nil => simp only [lev_nil_left, List.length_cons]; omega
      | cons x a =>
        have h1 := ih a b (by simp at h; omega)
        have h2 := h1.1 x
        have h3 := h1.2 y
        rw [lev_cons_cons]
        split <;> constructor <;> omega

theorem lev_del (x : Nat) (a b : Str) : levSpec (x :: a) b ≤ levSpec a b + 1 :=
  ((lev_step_aux _ a b le_rfl).1 x).1

theorem lev_ins (y : Nat) (a b : Str) : levSpec a (y :: b) ≤ levSpec a b + 1 :=
  ((lev_step_aux _ a b le_rfl).2 y).1

theorem lev_sub (x y : Nat) (a b : Str) : levSpec (x :: a) (y :: b) ≤ levSpec a b + 1 := by
  rw [lev_cons_cons]
  split <;> omega

theorem lev_le_of_ed {a b : Str} {n : Nat} (h : Ed a b n) : levSpec a b ≤ n := by
  induction h with
  | nil => simp [levSpec]
  | del x _ ih => exact (lev_del x _ _).trans (by omega)
  | ins y _ ih => exact (lev_ins y _ _).trans (by omega)
  | sub x y _ ih => exact (lev_sub x y _ _).trans (by omega)
  | keep x _ ih => rw [lev_cons_cons, if_pos rfl]; exact ih

theorem ed_nil_left (b : Str) : Ed [] b b.length := by
  induction b with
  | nil => exact Ed.nil
  | cons y b ih => exact Ed.ins y ih

theorem ed_nil_right (a : Str) : Ed a [] a.length := by
  induction a with
  | nil => exact Ed.nil
  | cons x a ih => exact Ed.del x ih

theorem ed_lev_aux (n : Nat) : ∀ a b : Str, a.length + b.length ≤ n → Ed a b (levSpec a b) := by
  induction n with
  | zero =>
    intro a b h
    have ha : a = [] := by cases a <;> simp_all
    have hb : b = [] := by cases b <;> simp_all
    subst ha hb
    rw [lev_nil_left]
    exact Ed.nil
  | succ n ih =>
    intro a b h
    cases a with
    | nil => rw [lev_nil_left]; exact ed_nil_left b
    | cons x a =>
      cases b with
      | nil => rw [lev_nil_right]; exact ed_nil_right _
      | cons y b =>
        have h1 := ih a b (by simp at h; omega)
        have h2 := ih a (y :: b) (by simp at h ⊢; omega)
        have h3 := ih (x :: a) b (by simp at h ⊢; omega)
        rw [lev_cons_cons]
        split
        · next hxy => subst hxy; exact Ed.keep x h1
        · rw [Nat.add_comm]
          rcases min_choice (levSpec a b) (min (levSpec a (y :: b)) (levSpec (x :: a) b)) with e | e
          · rw [e]; exact Ed.sub x y h1
          · rw [e]
            rcases min_choice (levSpec a (y :: b)) (levSpec (x :: a) b) with e2 | e2
            · rw [e2]; exact Ed.del x h2
            · rw [e2]; exact Ed.ins y h3

theorem ed_lev (a b : Str) : Ed a b (levSpec a b) :=
  ed_lev_aux _ a b le_rfl

theorem ed_del_snoc (x : Nat) {a b : Str} {n : Nat} (h : Ed a b n) :
    Ed (a ++ [x]) b (n + 1) := by
  induction h with
  | nil => exact Ed.del x Ed.nil
  | del z _ ih => exact Ed.del z ih
  | ins z _ ih => exact Ed.ins z ih
  | sub z w _ ih => exact Ed.sub z w ih
  | keep z _ ih => exact Ed.keep z ih

theorem ed_ins_snoc (y : Nat) {a b : Str} {n : Nat} (h : Ed a b n) :
    Ed a (b ++ [y]) (n + 1) := by
  induction h with
  | nil => exact Ed.ins y Ed.nil
  | del z _ ih => exact Ed.del z ih
  | ins z _ ih => exact Ed.ins z ih
  | sub z w _ ih => exact Ed.sub z w ih
  | keep z _ ih => exact Ed.keep z ih

theorem ed_sub_snoc (x y : Nat) {a b : Str} {n : Nat} (h : Ed a b n) :
    Ed (a ++ [x]) (b ++ [y]) (n + 1) := by
  induction h with
  | nil => exact Ed.sub x y Ed.nil
  | del z _ ih => exact Ed.del z ih
  | ins z _ ih => exact Ed.ins z ih
  | sub z w _ ih => exact Ed.sub z w ih
  | keep z _ ih => exact Ed.keep z ih

theorem ed_keep_snoc (x : Nat) {a b : Str} {n : Nat} (h : Ed a b n) :
    Ed (a ++ [x]) (b ++ [x]) n := by
  induction h with
  | nil => exact Ed.keep x Ed.nil
  | del z _ ih => exact Ed.del z ih
  | ins z _ ih => exact Ed.ins z ih
  | sub z w _ ih => exact Ed.sub z w ih
  | keep z _ ih => exact Ed.keep z ih

theorem ed_reverse {a b : Str} {n : Nat} (h : Ed a b n) : Ed a.reverse b.reverse n := by
  induction h with
  | nil => exact Ed.nil
  | del x _ ih => rw [List.reverse_cons]; exact ed_del_snoc x ih
  | ins y _ ih => rw [List.reverse_cons]; exact ed_ins_snoc y ih
  | sub x y _ ih => rw [List.reverse_cons, List.reverse_cons]; exact ed_sub_snoc x y ih
  | keep x _ ih => rw [List.reverse_cons, List.reverse_cons]; exact ed_keep_snoc x ih

theorem ed_swap {a b : Str} {n : Nat} (h : Ed a b n) : Ed b a n := by
  induction h with
  | nil => exact Ed.nil
  | del x _ ih => exact Ed.ins x ih
  | ins y _ ih => exact Ed.del y ih
  | sub x y _ ih => exact Ed.sub y x ih
  | keep x _ ih => exact Ed.keep x ih

theorem lev_reverse (a b : Str) : levSpec a.reverse b.reverse = levSpec a b := by
  apply le_antisymm
  · exact lev_le_of_ed (ed_reverse (ed_lev a b))
  · have := lev_le_of_ed (ed_reverse (ed_lev a.reverse b.reverse))
    simpa using this

theorem lev_comm (a b : Str) : levSpec a b = levSpec b a :=
  le_antisymm (lev_le_of_ed (ed_swap (ed_lev b a))) (lev_le_of_ed (ed_swap (ed_lev a b)))

theorem rowGo_spec (bc : Nat) (rb : Str) : ∀ (as ra : Str),
    rowGo bc as (levSpec ra rb) (rowSpec rb ra as) (levSpec ra (bc :: rb)) =
      rowSpec (bc :: rb) ra as := by
  intro as
  induction as with
  | nil => intro ra; simp [rowGo, rowSpec]
  | cons ac as ih =>
    intro ra
    simp only [rowGo, rowSpec]
    have hv : (if bc = ac then levSpec ra rb
        else min (levSpec ra rb + 1) (min (levSpec ra (bc :: rb) + 1) (levSpec (ac :: ra) rb + 1))) =
        levSpec (ac :: ra) (bc :: rb) := by
      rw [lev_cons_cons]
      by_cases h : bc = ac
      · rw [if_pos h, if_pos h.symm]
      · rw [if_neg h, if_neg (Ne.symm h)]; omega
    rw [hv, ih (ac :: ra)]

theorem rowSpec_nil (as : Str) : ∀ ra : Str,
    rowSpec [] ra as = List.range' (ra.length + 1) as.length := by
  induction as with
  | nil => intro ra; simp [rowSpec]
  | cons ac as ih =>
    intro ra
    simp [rowSpec, lev_nil_right, ih, List.range']

theorem rowsGo_spec (a : Str) : ∀ (b rb : Str),
    rowsGo a b rb.length (levSpec [] rb :: rowSpec rb [] a) =
      levSpec [] (b.reverse ++ rb) :: rowSpec (b.reverse ++ rb) [] a := by
  intro b
  induction b with
  | nil => intro rb; simp [rowsGo]
  | cons bc b ih =>
    intro rb
    simp only [rowsGo, nextRow]
    have h := rowGo_spec bc rb a []
    rw [lev_nil_left (bc :: rb)] at h
    rw [List.length_cons] at h
    rw [h]
    have := ih (bc :: rb)
    rw [lev_nil_left (bc :: rb), List.length_cons] at this
    rw [this]
    simp

theorem rowSpec_getD (rb : Str) : ∀ (as ra : Str),
    (levSpec ra rb :: rowSpec rb ra as).getD as.length 0 = levSpec (as.reverse ++ ra) rb := by
  intro as
  induction as with
  | nil => intro ra; simp
  | cons ac as ih =>
    intro ra
    simp only [rowSpec, List.length_cons, List.getD_cons_succ]
    rw [ih (ac :: ra)]
    simp

theorem levenshteinDistance_eq (a b : Str) : levenshteinDistance a b = levSpec a b := by
  unfold levenshteinDistance
  have h0 : List.range (a.length + 1) = levSpec [] [] :: rowSpec [] [] a := by
    rw [rowSpec_nil, List.range_eq_range']
    simp [levSpec, List.range']
  rw [h0]
  have := rowsGo_spec a b []
  simp only [List.length_nil, List.append_nil] at this
  rw [this, rowSpec_getD]
  simp [lev_reverse]

/-- C1: `levenshteinDistance a b` is the Levenshtein distance of `a` and `b` as
defined by the recursion `levSpec("", b) = |b|`, `levSpec(a, "") = |a|`, equal heads
cost nothing and different heads cost one more than the least of the three
sub-problems; and `levenshteinDistance("kitten", "sitting") = 3`. -/
theorem levenshteinDistance_is_levenshtein :
    (∀ a b : Str, levenshteinDistance a b = levSpec a b) ∧
    levenshteinDistance (js "kitten") (js "sitting") = 3 :=
  ⟨levenshteinDistance_eq, by decide⟩


/-! ## Normalization -/

theorem trim_eq_rdropWhile (s : Str) : trim s = (s.dropWhile isSpace).rdropWhile isSpace := rfl

theorem dropWhile_trim (s : Str) : (trim s).dropWhile isSpace = trim s := by
  rw [List.dropWhile_eq_self_iff]
  intro hl
  have hp : trim s <+: s.dropWhile isSpace := by
    rw [trim_eq_rdropWhile]; exact List.rdropWhile_prefix _ _
  obtain ⟨t, ht⟩ := hp
  have h2 : List.dropWhile isSpace (s.dropWhile isSpace) = s.dropWhile isSpace :=
    List.dropWhile_idempotent _ _
  rw [List.dropWhile_eq_self_iff] at h2
  have hl2 : 0 < (s.dropWhile isSpace).length := by
    rw [← ht, List.length_append]; omega
  have h3 := h2 hl2
  have h4 : (s.dropWhile isSpace).get ⟨0, hl2⟩ = (trim s).get ⟨0, hl⟩ := by
    simp only [List.get_eq_getElem]
    simp only [← ht]
    rw [List.getElem_append_left]
  rw [h4] at h3
  exact h3

theorem trim_trim (s : Str) : trim (trim s) = trim s := by
  conv_lhs => rw [trim_eq_rdropWhile, dropWhile_trim]
  rw [trim_eq_rdropWhile]
  exact List.rdropWhile_idempotent _ _

theorem mem_trim {s : Str} {c : Nat} (h : c ∈ trim s) : c ∈ s := by
  have hp : trim s <+: s.dropWhile isSpace := by
    rw [trim_eq_rdropWhile]; exact List.rdropWhile_prefix _ _
  exact (List.dropWhile_suffix _).subset (hp.subset h)

theorem lowerUnit_not_upper (c : Nat) : isUpper (lowerUnit c) = false := by
  unfold lowerUnit
  split
  · next h => simp [isUpper] at h ⊢; omega
  · next h => simpa using h

theorem lowerUnit_of_not_upper {c : Nat} (h : isUpper c = false) : lowerUnit c = c := by
  simp [lowerUnit, h]

/-- Every code unit of a normalized text is a word character or white space
and is no capital letter, when the case tables produce no capital letter. -/
theorem mem_normalizeText (uni : Str → Str)
    (hUpper : ∀ s c, c ∈ uni s → isUpper c = false) (s : Str) {c : Nat}
    (h : c ∈ normalizeText uni s) :
    (isWord c || isSpace c) = true ∧ isUpper c = false := by
  have h1 := mem_trim h
  unfold stripNonWord at h1
  rw [List.mem_filter] at h1
  refine ⟨h1.2, ?_⟩
  have h2 := h1.1
  unfold toLowerCase at h2
  split at h2
  · rw [List.mem_map] at h2
    obtain ⟨d, _, rfl⟩ := h2
    exact lowerUnit_not_upper d
  · exact hUpper _ _ h2

/-- C3: `normalizeText` is idempotent, for case tables `uni` that produce no
ASCII capital letter and leave unchanged every string made of word characters
other than capital letters and of white space. -/
theorem normalizeText_idempotent (uni : Str → Str)
    (hUpper : ∀ s c, c ∈ uni s → isUpper c = false)
    (hFix : ∀ t : Str, (∀ c ∈ t, (isWord c || isSpace c) = true ∧ isUpper c = false) →
      uni t = t)
    (s : Str) :
    normalizeText uni (normalizeText uni s) = normalizeText uni s := by
  have hmem : ∀ c ∈ normalizeText uni s, (isWord c || isSpace c) = true ∧ isUpper c = false :=
    fun c hc => mem_normalizeText uni hUpper s hc
  have hlow : toLowerCase uni (normalizeText uni s) = normalizeText uni s := by
    unfold toLowerCase
    split
    · conv_rhs => rw [← List.map_id (normalizeText uni s)]
      apply List.map_congr_left
      intro c hc
      simpa using lowerUnit_of_not_upper (hmem c hc).2
    · exact hFix _ hmem
  have hstrip : stripNonWord (normalizeText uni s) = normalizeText uni s := by
    unfold stripNonWord
    rw [List.filter_eq_self]
    exact fun c hc => (hmem c hc).1
  conv_lhs => rw [normalizeText, hlow, hstrip]
  exact trim_trim _

theorem asciiTables_no_upper (s : Str) (c : Nat) (h : c ∈ asciiTables s) :
    isUpper c = false := by
  unfold asciiTables at h
  rw [List.mem_map] at h
  obtain ⟨d, _, rfl⟩ := h
  exact lowerUnit_not_upper d

theorem asciiTables_fix (t : Str)
    (h : ∀ c ∈ t, (isWord c || isSpace c) = true ∧ isUpper c = false) :
    asciiTables t = t := by
  unfold asciiTables
  conv_rhs => rw [← List.map_id t]
  apply List.map_congr_left
  intro c hc
  simpa using lowerUnit_of_not_upper (h c hc).2

/-- Witness of C3: the ASCII case tables meet both conditions, and the text
`" Hello, World! "` is normalized to the same string once and twice. -/
theorem normalizeText_idempotent_witness :
    (∀ s c, c ∈ asciiTables s → isUpper c = false) ∧
    (∀ t : Str, (∀ c ∈ t, (isWord c || isSpace c) = true ∧ isUpper c = false) →
      asciiTables t = t) ∧
    normalizeText asciiTables (normalizeText asciiTables (js " Hello, World! ")) =
      normalizeText asciiTables (js " Hello, World! ") :=
  ⟨asciiTables_no_upper, asciiTables_fix,
    normalizeText_idempotent asciiTables asciiTables_no_upper asciiTables_fix
      (js " Hello, World! ")⟩

/-! ## Jaccard similarity of empty texts -/

/-- C2: at the inputs where the claim says 0 the code returns 1:
`jaccardSimilarity("", "") = 1` and `jaccardSimilarity("?!", " ") = 1`, because
`"".split(/\s+/)` is `[""]` and the union of the token sets has one element,
the empty token. -/
theorem jaccardSimilarity_empty_eq_one (uni : Str → Str) :
    jaccardSimilarity uni (js "") (js "") = 1 ∧
    jaccardSimilarity uni (js "?!") (js " ") = 1 := by
  constructor <;> simp [jaccardSimilarity, normalizeText, toLowerCase, stripNonWord, trim, js,
    unitsOfChar, splitWs, splitGo, newSet, setAdd, isWord, isSpace, lowerUnit, isUpper]

/-! ## Context selection -/

theorem includes_iff (s t : Str) : includes s t = true ↔ t <:+: s := by
  unfold includes
  rw [List.any_eq_true, List.infix_iff_prefix_suffix]
  constructor
  · rintro ⟨u, hu, hp⟩
    exact ⟨u, List.isPrefixOf_iff_prefix.mp hp, (List.mem_tails _ _).mp hu⟩
  · rintro ⟨u, hp, hu⟩
    exact ⟨u, (List.mem_tails _ _).mpr hu, List.isPrefixOf_iff_prefix.mpr hp⟩

theorem possibility_eq_spec (uni : Str → Str) (userInput : Str) (c : ContextEntry) :
    possibility uni userInput c = possibilitySpec uni userInput c := by
  unfold possibility possibilitySpec
  simp only []
  by_cases h : includes (normalizeText uni userInput) (normalizeText uni c.Query) = true
  · rw [if_pos h, if_pos ((includes_iff _ _).mp h)]
  · rw [if_neg h, if_neg (fun h2 => h ((includes_iff _ _).mpr h2))]
    rw [List.countP_eq_length_filter]
    congr 3
    apply List.filter_congr
    intro token _
    rw [Bool.eq_iff_iff]
    simp only [List.any_eq_true, Bool.or_eq_true, beq_iff_eq, includes_iff, decide_eq_true_eq,
      or_assoc]

theorem greetingContext_none (uni : Str → Str) (kb : List ContextEntry) (userInput : Str)
    (hNo : isGreeting uni userInput = false ∨
      ∀ c ∈ kb, normalizeText uni c.Query ≠ js "greetings") :
    (if isGreeting uni userInput = true then
      kb.find? (fun item => normalizeText uni item.Query == js "greetings")
    else none) = none := by
  rcases hNo with h | h
  · simp [h]
  · split
    · rw [List.find?_eq_none]
      intro c hc
      simpa using h c hc
    · rfl

theorem select_of_no_greeting (uni : Str → Str) (kb : List ContextEntry) (userInput : Str)
    (hNo : isGreeting uni userInput = false ∨
      ∀ c ∈ kb, normalizeText uni c.Query ≠ js "greetings") :
    selectContextByPossibility uni kb userInput =
      match sortByPossibility (kb.map (fun contextItem =>
        (contextItem, possibility uni userInput contextItem))) with
      | top :: _ => if top.2 ≥ 1 / 2 then some top.1 else getLargestQueryContext kb
      | [] => getLargestQueryContext kb := by
  unfold selectContextByPossibility
  simp only []
  rw [greetingContext_none uni kb userInput hNo]

theorem sortByPossibility_cons (x : ContextEntry × ℚ) (xs : List (ContextEntry × ℚ)) :
    sortByPossibility (x :: xs) = sortInsert x (sortByPossibility xs) := rfl

theorem sortInsert_cons (x y : ContextEntry × ℚ) (ys : List (ContextEntry × ℚ)) :
    sortInsert x (y :: ys) = if y.2 ≤ x.2 then x :: y :: ys else y :: sortInsert x ys := rfl

theorem mem_sortInsert (x y : ContextEntry × ℚ) (l : List (ContextEntry × ℚ)) :
    y ∈ sortInsert x l ↔ y = x ∨ y ∈ l := by
  induction l with
  | nil => simp [sortInsert]
  | cons z zs ih =>
    rw [sortInsert_cons]
    split
    · simp
    · simp only [List.mem_cons, ih]
      tauto

theorem mem_sortByPossibility (y : ContextEntry × ℚ) (l : List (ContextEntry × ℚ)) :
    y ∈ sortByPossibility l ↔ y ∈ l := by
  induction l with
  | nil => simp [sortByPossibility]
  | cons z zs ih => rw [sortByPossibility_cons, mem_sortInsert, ih, List.mem_cons]

theorem sortInsert_head (x : ContextEntry × ℚ) (l : List (ContextEntry × ℚ))
    (h : ∀ y ∈ l, y.2 ≤ x.2) : ∃ tl, sortInsert x l = x :: tl := by
  cases l with
  | nil => exact ⟨[], rfl⟩
  | cons z zs =>
    refine ⟨z :: zs, ?_⟩
    rw [sortInsert_cons, if_pos (h z (List.mem_cons_self _ _))]

/-- After the stable descending sort the first element is the first maximum
of the original order. -/
theorem sortByPossibility_head (pre post : List (ContextEntry × ℚ)) (x : ContextEntry × ℚ)
    (hpre : ∀ y ∈ pre, y.2 < x.2) (hpost : ∀ y ∈ post, y.2 ≤ x.2) :
    ∃ tl, sortByPossibility (pre ++ x :: post) = x :: tl := by
  induction pre with
  | nil =>
    rw [List.nil_append, sortByPossibility_cons]
    apply sortInsert_head
    intro y hy
    exact hpost y ((mem_sortByPossibility y post).mp hy)
  | cons p pre ih =>
    obtain ⟨tl, htl⟩ := ih (fun y hy => hpre y (List.mem_cons_of_mem _ hy))
    rw [List.cons_append, sortByPossibility_cons, htl, sortInsert_cons,
      if_neg (not_le.mpr (hpre p (List.mem_cons_self _ _)))]
    exact ⟨sortInsert p tl, rfl⟩

theorem greeting_override_at (uni : Str → Str) (pre post : List ContextEntry) (e : ContextEntry)
    (userInput : Str)
    (hGreeting : isGreeting uni userInput = true)
    (hQuery : normalizeText uni e.Query = js "greetings")
    (hFirst : ∀ c ∈ pre, normalizeText uni c.Query ≠ js "greetings") :
    selectContextByPossibility uni (pre ++ e :: post) userInput = some e := by
  unfold selectContextByPossibility
  simp only [hGreeting, if_true]
  have hfind : (pre ++ e :: post).find? (fun item => normalizeText uni item.Query == js "greetings")
      = some e := by
    rw [List.find?_append]
    have h1 : pre.find? (fun item => normalizeText uni item.Query == js "greetings") = none := by
      rw [List.find?_eq_none]
      intro c hc
      simpa using hFirst c hc
    rw [h1]
    simp [List.find?_cons, hQuery]
  rw [hfind]

/-- C4: greeting override. For every knowledge base with an entry whose
normalized `Query` is `"greetings"` and every input of which `isGreeting`
holds, `selectContextByPossibility` returns the first such entry of the
knowledge base, whatever the scores of the entries. -/
theorem greeting_override (uni : Str → Str) (kb : List ContextEntry) (userInput : Str)
    (hGreeting : isGreeting uni userInput = true)
    (hEntry : ∃ c ∈ kb, normalizeText uni c.Query = js "greetings") :
    ∃ pre e post, kb = pre ++ e :: post ∧
      normalizeText uni e.Query = js "greetings" ∧
      (∀ c ∈ pre, normalizeText uni c.Query ≠ js "greetings") ∧
      selectContextByPossibility uni kb userInput = some e := by
  obtain ⟨pre, e, post, hdec, he, hpre⟩ :=
    exists_first_of_exists (fun c => normalizeText uni c.Query = js "greetings") kb hEntry
  refine ⟨pre, e, post, hdec, he, hpre, ?_⟩
  rw [hdec]
  exact greeting_override_at uni pre post e userInput hGreeting he hpre

theorem select_first_maximum_at (uni : Str → Str) (pre post : List ContextEntry)
    (e : ContextEntry) (userInput : Str)
    (hNo : isGreeting uni userInput = false ∨
      ∀ c ∈ pre ++ e :: post, normalizeText uni c.Query ≠ js "greetings")
    (hpre : ∀ c ∈ pre, possibility uni userInput c < possibility uni userInput e)
    (hpost : ∀ c ∈ post, possibility uni userInput c ≤ possibility uni userInput e)
    (hthr : 1 / 2 ≤ possibility uni userInput e) :
    selectContextByPossibility uni (pre ++ e :: post) userInput = some e := by
  rw [select_of_no_greeting uni _ userInput hNo]
  have hs := sortByPossibility_head
    (pre.map (fun c => (c, possibility uni userInput c)))
    (post.map (fun c => (c, possibility uni userInput c)))
    (e, possibility uni userInput e)
    (by
      intro y hy
      rw [List.mem_map] at hy
      obtain ⟨c, hc, rfl⟩ := hy
      exact hpre c hc)
    (by
      intro y hy
      rw [List.mem_map] at hy
      obtain ⟨c, hc, rfl⟩ := hy
      exact hpost c hc)
  obtain ⟨tl, htl⟩ := hs
  rw [List.map_append, List.map_cons, htl]
  simp only [ge_iff_le, hthr, if_true]

/-- C5: possibility-weighted selection. The score of an entry is 1 when the
normalized input contains the normalized query, and otherwise the share of the
query tokens that equal, contain or are contained in an input token. For every
knowledge base and input to which the greeting override does not apply, when
some score is at least 0.5, `selectContextByPossibility` returns the first
entry `e` of the knowledge base with the maximum score: the entries before `e`
score less and the entries after `e` score no more. -/
theorem select_first_maximum (uni : Str → Str) (kb : List ContextEntry) (userInput : Str)
    (hNo : isGreeting uni userInput = false ∨
      ∀ c ∈ kb, normalizeText uni c.Query ≠ js "greetings")
    (hthr : ∃ c ∈ kb, 1 / 2 ≤ possibility uni userInput c) :
    (∀ c, possibility uni userInput c = possibilitySpec uni userInput c) ∧
    ∃ pre e post, kb = pre ++ e :: post ∧
      (∀ c ∈ pre, possibility uni userInput c < possibility uni userInput e) ∧
      (∀ c ∈ post, possibility uni userInput c ≤ possibility uni userInput e) ∧
      1 / 2 ≤ possibility uni userInput e ∧
      selectContextByPossibility uni kb userInput = some e := by
  refine ⟨possibility_eq_spec uni userInput, ?_⟩
  obtain ⟨c, hc, hhalf⟩ := hthr
  obtain ⟨pre, e, post, hdec, hpre, hpost⟩ :=
    exists_first_max (possibility uni userInput) kb (List.ne_nil_of_mem hc)
  have hmax : 1 / 2 ≤ possibility uni userInput e := by
    rw [hdec, List.mem_append, List.mem_cons] at hc
    rcases hc with hc | rfl | hc
    · exact hhalf.trans (le_of_lt (hpre c hc))
    · exact hhalf
    · exact hhalf.trans (hpost c hc)
  refine ⟨pre, e, post, hdec, hpre, hpost, hmax, ?_⟩
  rw [hdec] at hNo ⊢
  exact select_first_maximum_at uni pre post e userInput hNo hpre hpost hmax

theorem foldl_largest_keep (l : List ContextEntry) (m : ContextEntry)
    (h : ∀ c ∈ l, c.Conversation.length ≤ m.Conversation.length) :
    l.foldl (fun maxContext context =>
      if context.Conversation.length > maxContext.Conversation.length then context
      else maxContext) m = m := by
  induction l with
  | nil => rfl
  | cons c l ih =>
    rw [List.foldl_cons, if_neg (not_lt.mpr (h c (List.mem_cons_self _ _)))]
    exact ih (fun d hd => h d (List.mem_cons_of_mem _ hd))

theorem foldl_largest_first (pre post : List ContextEntry) (e : ContextEntry) :
    ∀ m : ContextEntry, (m = e ∨ m.Conversation.length < e.Conversation.length) →
    (∀ c ∈ pre, c.Conversation.length < e.Conversation.length) →
    (∀ c ∈ post, c.Conversation.length ≤ e.Conversation.length) →
    (pre ++ e :: post).foldl (fun maxContext context =>
      if context.Conversation.length > maxContext.Conversation.length then context
      else maxContext) m = e := by
  induction pre with
  | nil =>
    intro m hm _ hpost
    rw [List.nil_append, List.foldl_cons]
    have : (if e.Conversation.length > m.Conversation.length then e else m) = e := by
      rcases hm with rfl | hm
      · simp
      · rw [if_pos hm]
    rw [this]
    exact foldl_largest_keep post e hpost
  | cons p pre ih =>
    intro m hm hpre hpost
    rw [List.cons_append, List.foldl_cons]
    apply ih _ _ (fun c hc => hpre c (List.mem_cons_of_mem _ hc)) hpost
    have hp := hpre p (List.mem_cons_self _ _)
    split
    · exact Or.inr hp
    · exact hm

theorem getLargestQueryContext_first (pre post : List ContextEntry) (e : ContextEntry)
    (hpre : ∀ c ∈ pre, c.Conversation.length < e.Conversation.length)
    (hpost : ∀ c ∈ post, c.Conversation.length ≤ e.Conversation.length) :
    getLargestQueryContext (pre ++ e :: post) = some e := by
  unfold getLargestQueryContext
  cases pre with
  | nil =>
    simp only [List.nil_append, List.head?_cons]
    have := foldl_largest_first [] post e e (Or.inl rfl) hpre hpost
    rw [List.nil_append] at this
    rw [this]
  | cons p pre =>
    simp only [List.cons_append, List.head?_cons]
    have := foldl_largest_first (p :: pre) post e p
      (Or.inr (hpre p (List.mem_cons_self _ _))) hpre hpost
    rw [List.cons_append] at this
    rw [this]

theorem select_fallback_largest_at (uni : Str → Str) (pre post : List ContextEntry)
    (e : ContextEntry) (userInput : Str)
    (hNo : isGreeting uni userInput = false ∨
      ∀ c ∈ pre ++ e :: post, normalizeText uni c.Query ≠ js "greetings")
    (hlow : ∀ c ∈ pre ++ e :: post, possibility uni userInput c < 1 / 2)
    (hpre : ∀ c ∈ pre, c.Conversation.length < e.Conversation.length)
    (hpost : ∀ c ∈ post, c.Conversation.length ≤ e.Conversation.length) :
    selectContextByPossibility uni (pre ++ e :: post) userInput = some e := by
  rw [select_of_no_greeting uni _ userInput hNo]
  have hL := getLargestQueryContext_first pre post e hpre hpost
  split
  · next top tl heq =>
    have hmem : top ∈ sortByPossibility ((pre ++ e :: post).map (fun contextItem =>
        (contextItem, possibility uni userInput contextItem))) := by
      rw [heq]; exact List.mem_cons_self _ _
    rw [mem_sortByPossibility, List.mem_map] at hmem
    obtain ⟨c, hc, rfl⟩ := hmem
    rw [if_neg (not_le.mpr (hlow c hc))]
    exact hL
  · exact hL

/-- C6: fallback. For every non-empty knowledge base and input to which the
greeting override does not apply, when no score reaches 0.5,
`selectContextByPossibility` returns the first entry `e` of the knowledge base
with the largest `Conversation` length: the entries before `e` have fewer pairs
and the entries after `e` have no more. -/
theorem select_fallback_largest (uni : Str → Str) (kb : List ContextEntry) (userInput : Str)
    (hne : kb ≠ [])
    (hNo : isGreeting uni userInput = false ∨
      ∀ c ∈ kb, normalizeText uni c.Query ≠ js "greetings")
    (hlow : ∀ c ∈ kb, possibility uni userInput c < 1 / 2) :
    ∃ pre e post, kb = pre ++ e :: post ∧
      (∀ c ∈ pre, c.Conversation.length < e.Conversation.length) ∧
      (∀ c ∈ post, c.Conversation.length ≤ e.Conversation.length) ∧
      selectContextByPossibility uni kb userInput = some e := by
  obtain ⟨pre, e, post, hdec, hpre, hpost⟩ :=
    exists_first_max (fun c : ContextEntry => c.Conversation.length) kb hne
  refine ⟨pre, e, post, hdec, hpre, hpost, ?_⟩
  rw [hdec] at hNo hlow ⊢
  exact select_fallback_largest_at uni pre post e userInput hNo hlow hpre hpost

theorem possibility_eq_one (uni : Str → Str) (userInput : Str) (c : ContextEntry)
    (h : includes (normalizeText uni userInput) (normalizeText uni c.Query) = true) :
    possibility uni userInput c = 1 := by
  unfold possibility
  simp only []
  rw [if_pos h]

theorem possibility_eq_div (uni : Str → Str) (userInput : Str) (c : ContextEntry) (m n : Nat)
    (h : includes (normalizeText uni userInput) (normalizeText uni c.Query) = false)
    (hm : ((splitWs (normalizeText uni c.Query)).filter (fun token =>
      (splitWs (normalizeText uni userInput)).any
        (fun t => t == token || includes t token || includes token t))).length = m)
    (hn : (splitWs (normalizeText uni c.Query)).length = n) :
    possibility uni userInput c = (m : ℚ) / (n : ℚ) := by
  unfold possibility
  simp only []
  rw [if_neg (by simp [h]), hm, hn]

theorem possibility_sports (c : ContextEntry) (hc : c ∈ [weatherEntry, greetingsEntry]) :
    possibility asciiTables (js "sports news today") c = 0 := by
  simp only [List.mem_cons, List.mem_singleton, List.not_mem_nil, or_false] at hc
  rcases hc with rfl | rfl
  · rw [possibility_eq_div asciiTables _ weatherEntry 0 1 (by decide) (by decide) (by decide)]
    norm_num
  · rw [possibility_eq_div asciiTables _ greetingsEntry 0 1 (by decide) (by decide) (by decide)]
    norm_num

theorem possibility_sports_sports :
    possibility asciiTables (js "sports news today") sportsEntry = 1 :=
  possibility_eq_one asciiTables _ sportsEntry (by decide)

theorem possibility_sports_news :
    possibility asciiTables (js "sports news today") newsEntry = 1 :=
  possibility_eq_one asciiTables _ newsEntry (by decide)

theorem possibility_zzz (c : ContextEntry) (hc : c ∈ demoKb) :
    possibility asciiTables (js "zzz nonsense") c < 1 / 2 := by
  simp only [demoKb, List.mem_cons, List.mem_singleton, List.not_mem_nil, or_false] at hc
  rcases hc with rfl | rfl | rfl | rfl
  · rw [possibility_eq_div asciiTables _ weatherEntry 0 1 (by decide) (by decide) (by decide)]
    norm_num
  · rw [possibility_eq_div asciiTables _ greetingsEntry 0 1 (by decide) (by decide) (by decide)]
    norm_num
  · rw [possibility_eq_div asciiTables _ sportsEntry 0 2 (by decide) (by decide) (by decide)]
    norm_num
  · rw [possibility_eq_div asciiTables _ newsEntry 0 1 (by decide) (by decide) (by decide)]
    norm_num

/-- Witness of C4: `isGreeting("Hi")` holds, the knowledge base `demoKb` has a
greetings entry, and that entry is selected. -/
theorem greeting_override_witness :
    isGreeting asciiTables (js "Hi") = true ∧
    (∃ c ∈ demoKb, normalizeText asciiTables c.Query = js "greetings") ∧
    (∃ pre e post, demoKb = pre ++ e :: post ∧
      normalizeText asciiTables e.Query = js "greetings" ∧
      (∀ c ∈ pre, normalizeText asciiTables c.Query ≠ js "greetings") ∧
      selectContextByPossibility asciiTables demoKb (js "Hi") = some e) ∧
    selectContextByPossibility asciiTables demoKb (js "Hi") = some greetingsEntry :=
  ⟨by decide, ⟨greetingsEntry, by decide, by decide⟩,
    greeting_override asciiTables demoKb (js "Hi") (by decide)
      ⟨greetingsEntry, by decide, by decide⟩,
    greeting_override_at asciiTables [weatherEntry] [sportsEntry, newsEntry] greetingsEntry
      (js "Hi") (by decide) (by decide) (by decide)⟩

theorem sports_scores_half : 1 / 2 ≤ possibility asciiTables (js "sports news today") sportsEntry := by
  rw [possibility_sports_sports]
  norm_num

/-- Witness of C5: for the input `"sports news today"` the last two entries of
`demoKb` have score 1, and the first of them is selected. -/
theorem select_first_maximum_witness :
    isGreeting asciiTables (js "sports news today") = false ∧
    (∃ c ∈ demoKb, 1 / 2 ≤ possibility asciiTables (js "sports news today") c) ∧
    ((∀ c, possibility asciiTables (js "sports news today") c =
        possibilitySpec asciiTables (js "sports news today") c) ∧
      ∃ pre e post, demoKb = pre ++ e :: post ∧
        (∀ c ∈ pre, possibility asciiTables (js "sports news today") c <
          possibility asciiTables (js "sports news today") e) ∧
        (∀ c ∈ post, possibility asciiTables (js "sports news today") c ≤
          possibility asciiTables (js "sports news today") e) ∧
        1 / 2 ≤ possibility asciiTables (js "sports news today") e ∧
        selectContextByPossibility asciiTables demoKb (js "sports news today") = some e) ∧
    selectContextByPossibility asciiTables demoKb (js "sports news today") = some sportsEntry :=
  ⟨by decide, ⟨sportsEntry, by decide, sports_scores_half⟩,
    select_first_maximum asciiTables demoKb (js "sports news today") (Or.inl (by decide))
      ⟨sportsEntry, by decide, sports_scores_half⟩,
    select_first_maximum_at asciiTables [weatherEntry, greetingsEntry] [newsEntry] sportsEntry
      (js "sports news today") (Or.inl (by decide))
      (by
        intro c hc
        rw [possibility_sports c hc, possibility_sports_sports]
        norm_num)
      (by
        intro c hc
        rw [List.mem_singleton] at hc
        rw [hc, possibility_sports_news, possibility_sports_sports])
      sports_scores_half⟩

/-- Witness of C6: for the input `"zzz nonsense"` every score is 0, two entries
of `demoKb` have two pairs, and the first of them is selected. -/
theorem select_fallback_largest_witness :
    demoKb ≠ [] ∧
    isGreeting asciiTables (js "zzz nonsense") = false ∧
    (∀ c ∈ demoKb, possibility asciiTables (js "zzz nonsense") c < 1 / 2) ∧
    (∃ pre e post, demoKb = pre ++ e :: post ∧
      (∀ c ∈ pre, c.Conversation.length < e.Conversation.length) ∧
      (∀ c ∈ post, c.Conversation.length ≤ e.Conversation.length) ∧
      selectContextByPossibility asciiTables demoKb (js "zzz nonsense") = some e) ∧
    selectContextByPossibility asciiTables demoKb (js "zzz nonsense") = some greetingsEntry :=
  ⟨by decide, by decide, possibility_zzz,
    select_fallback_largest asciiTables demoKb (js "zzz nonsense") (by decide)
      (Or.inl (by decide)) possibility_zzz,
    select_fallback_largest_at asciiTables [weatherEntry] [sportsEntry, newsEntry] greetingsEntry
      (js "zzz nonsense") (Or.inl (by decide)) possibility_zzz (by decide) (by decide)⟩

/-! ## Pair selection -/

theorem pairStep_eq (uni : Str → Str) (userInput : Str)
    (best : Option ConversationPair × Option Nat) (pair : ConversationPair) :
    pairStep uni (normalizeText uni userInput) best pair =
      if ltBest (pairDistance uni userInput pair) best.2 = true then
        (some pair, some (pairDistance uni userInput pair))
      else best := rfl

theorem pair_foldl_keep (uni : Str → Str) (userInput : Str) (p : ConversationPair) (d : Nat)
    (l : List ConversationPair) (h : ∀ x ∈ l, d ≤ pairDistance uni userInput x) :
    l.foldl (pairStep uni (normalizeText uni userInput)) (some p, some d) = (some p, some d) := by
  induction l with
  | nil => rfl
  | cons x l ih =>
    rw [List.foldl_cons, pairStep_eq]
    have hx := h x (List.mem_cons_self _ _)
    have : ltBest (pairDistance uni userInput x) (some d) = false := by
      simp only [ltBest, decide_eq_false_iff_not]
      omega
    rw [this]
    exact ih (fun y hy => h y (List.mem_cons_of_mem _ hy))

theorem pair_foldl_first (uni : Str → Str) (userInput : Str) (p : ConversationPair)
    (pre post : List ConversationPair)
    (hpre : ∀ x ∈ pre, pairDistance uni userInput p < pairDistance uni userInput x)
    (hpost : ∀ x ∈ post, pairDistance uni userInput p ≤ pairDistance uni userInput x) :
    ∀ best : Option ConversationPair × Option Nat,
      (∀ d, best.2 = some d → pairDistance uni userInput p < d) →
      (pre ++ p :: post).foldl (pairStep uni (normalizeText uni userInput)) best =
        (some p, some (pairDistance uni userInput p)) := by
  induction pre with
  | nil =>
    intro best hbest
    rw [List.nil_append, List.foldl_cons, pairStep_eq]
    have : ltBest (pairDistance uni userInput p) best.2 = true := by
      cases hb : best.2 with
      | none => rfl
      | some d => simpa [ltBest] using hbest d hb
    rw [if_pos this]
    exact pair_foldl_keep uni userInput p _ post hpost
  | cons x pre ih =>
    intro best hbest
    rw [List.cons_append, List.foldl_cons]
    apply ih (fun y hy => hpre y (List.mem_cons_of_mem _ hy))
    intro d hd
    rw [pairStep_eq] at hd
    split at hd
    · simp only [Option.some.injEq] at hd
      rw [← hd]
      exact hpre x (List.mem_cons_self _ _)
    · exact hbest d hd

theorem findBestConversationPair_first (uni : Str → Str) (entry : ContextEntry)
    (userInput : Str) (p : ConversationPair) (pre post : List ConversationPair)
    (hConv : entry.Conversation = pre ++ p :: post)
    (hpre : ∀ x ∈ pre, pairDistance uni userInput p < pairDistance uni userInput x)
    (hpost : ∀ x ∈ post, pairDistance uni userInput p ≤ pairDistance uni userInput x) :
    findBestConversationPair uni entry userInput =
      (some p, some (pairDistance uni userInput p)) := by
  unfold findBestConversationPair
  rw [hConv]
  exact pair_foldl_first uni userInput p pre post hpre hpost (none, none)
    (fun d hd => by simp at hd)

theorem choosePair_question (uni : Str → Str) (kb : List ContextEntry) (entry : ContextEntry)
    (userInput : Str) (p : ConversationPair) (pre post : List ConversationPair)
    (hSel : selectContextByPossibility uni kb userInput = some entry)
    (hQ : isQuestion userInput = true)
    (hConv : entry.Conversation = pre ++ p :: post)
    (hpre : ∀ x ∈ pre, pairDistance uni userInput p < pairDistance uni userInput x)
    (hpost : ∀ x ∈ post, pairDistance uni userInput p ≤ pairDistance uni userInput x)
    (hd : pairDistance uni userInput p ≤ 5) (g : Rand) (k : Nat) :
    choosePair uni kb g k userInput = Except.ok (some p, k) := by
  unfold choosePair
  rw [hSel]
  simp only [hQ, if_true]
  rw [findBestConversationPair_first uni entry userInput p pre post hConv hpre hpost]
  simp only [hd, if_true]

theorem getResponse_of_choosePair (uni : Str → Str) (kb : List ContextEntry) (g : Rand)
    (k k1 : Nat) (userInput : Str) (p : ConversationPair)
    (h : choosePair uni kb g k userInput = Except.ok (some p, k1)) :
    getResponseFromContext uni kb g k userInput =
      match generateMultipleDynamicResponses uni g p.Answer 5 k1 with
      | Except.error e => Except.error e
      | Except.ok (candidates, k2) =>
        Except.ok (chooseBestCandidate uni candidates p.Answer, k2) := by
  unfold getResponseFromContext
  rw [h]

/-- C7: question path of pair selection. For every entry with a non-empty
`Conversation`, `findBestConversationPair` returns the first pair `p` at the
minimum distance `d` from the input (the pairs before `p` are farther, the
pairs after `p` are no nearer), together with `d`. When the input is a
question, the entry is the selected one and `d ≤ 5`, the chosen pair is `p`
for every random source, no draw is taken for it, and the pipeline generates
and ranks its candidates from the answer of `p`. -/
theorem question_path (uni : Str → Str) (kb : List ContextEntry) (entry : ContextEntry)
    (userInput : Str)
    (hSel : selectContextByPossibility uni kb userInput = some entry)
    (hQ : isQuestion userInput = true)
    (hne : entry.Conversation ≠ []) :
    ∃ pre p post, entry.Conversation = pre ++ p :: post ∧
      (∀ x ∈ pre, pairDistance uni userInput p < pairDistance uni userInput x) ∧
      (∀ x ∈ post, pairDistance uni userInput p ≤ pairDistance uni userInput x) ∧
      findBestConversationPair uni entry userInput =
        (some p, some (levenshteinDistance (normalizeText uni userInput)
          (normalizeText uni p.Question))) ∧
      (pairDistance uni userInput p ≤ 5 → ∀ (g : Rand) (k : Nat),
        choosePair uni kb g k userInput = Except.ok (some p, k) ∧
        getResponseFromContext uni kb g k userInput =
          match generateMultipleDynamicResponses uni g p.Answer 5 k with
          | Except.error e => Except.error e
          | Except.ok (candidates, k2) =>
            Except.ok (chooseBestCandidate uni candidates p.Answer, k2)) := by
  obtain ⟨pre, p, post, hConv, hpre, hpost⟩ :=
    exists_first_min (pairDistance uni userInput) entry.Conversation hne
  refine ⟨pre, p, post, hConv, hpre, hpost,
    findBestConversationPair_first uni entry userInput p pre post hConv hpre hpost, ?_⟩
  intro hd g k
  have h := choosePair_question uni kb entry userInput p pre post hSel hQ hConv hpre hpost hd g k
  exact ⟨h, getResponse_of_choosePair uni kb g k k userInput p h⟩

theorem possibility_how_greetings :
    possibility asciiTables (js "How are you?") greetingsEntry < 1 / 2 := by
  rw [possibility_eq_div asciiTables _ greetingsEntry 0 1 (by decide) (by decide) (by decide)]
  norm_num

theorem select_how_greetings :
    selectContextByPossibility asciiTables [greetingsEntry] (js "How are you?") =
      some greetingsEntry :=
  select_fallback_largest_at asciiTables [] [] greetingsEntry (js "How are you?")
    (Or.inl (by decide))
    (by
      intro c hc
      simp only [List.nil_append, List.mem_singleton] at hc
      rw [hc]
      exact possibility_how_greetings)
    (by decide) (by decide)

/-- Witness of C7: the question `"How are you?"` selects the greetings entry,
whose second pair is at distance 0 from it and is the chosen pair. -/
theorem question_path_witness :
    selectContextByPossibility asciiTables [greetingsEntry] (js "How are you?") =
      some greetingsEntry ∧
    isQuestion (js "How are you?") = true ∧
    greetingsEntry.Conversation ≠ [] ∧
    (∃ pre p post, greetingsEntry.Conversation = pre ++ p :: post ∧
      (∀ x ∈ pre, pairDistance asciiTables (js "How are you?") p <
        pairDistance asciiTables (js "How are you?") x) ∧
      (∀ x ∈ post, pairDistance asciiTables (js "How are you?") p ≤
        pairDistance asciiTables (js "How are you?") x) ∧
      findBestConversationPair asciiTables greetingsEntry (js "How are you?") =
        (some p, some (levenshteinDistance (normalizeText asciiTables (js "How are you?"))
          (normalizeText asciiTables p.Question))) ∧
      (pairDistance asciiTables (js "How are you?") p ≤ 5 → ∀ (g : Rand) (k : Nat),
        choosePair asciiTables [greetingsEntry] g k (js "How are you?") =
          Except.ok (some p, k) ∧
        getResponseFromContext asciiTables [greetingsEntry] g k (js "How are you?") =
          match generateMultipleDynamicResponses asciiTables g p.Answer 5 k with
          | Except.error e => Except.error e
          | Except.ok (candidates, k2) =>
            Except.ok (chooseBestCandidate asciiTables candidates p.Answer, k2))) ∧
    findBestConversationPair asciiTables greetingsEntry (js "How are you?") =
      (some ⟨js "How are you?", js "I am fine"⟩, some 0) :=
  ⟨select_how_greetings, by decide, by decide,
    question_path asciiTables [greetingsEntry] greetingsEntry (js "How are you?")
      select_how_greetings (by decide) (by decide),
    by decide⟩

theorem possibility_how_smalltalk :
    possibility asciiTables (js "How are you?") smalltalkEntry < 1 / 2 := by
  rw [possibility_eq_div asciiTables _ smalltalkEntry 0 1 (by decide) (by decide) (by decide)]
  norm_num

theorem select_how_smalltalk :
    selectContextByPossibility asciiTables [smalltalkEntry] (js "How are you?") =
      some smalltalkEntry :=
  select_fallback_largest_at asciiTables [] [] smalltalkEntry (js "How are you?")
    (Or.inl (by decide))
    (by
      intro c hc
      simp only [List.nil_append, List.mem_singleton] at hc
      rw [hc]
      exact possibility_how_smalltalk)
    (by decide) (by decide)

/-- C8, counterexample: the entry `smalltalkEntry` is selected for the question
`"How are you?"`, its second pair is at distance 0 from the input, and the
chosen pair is the first pair, not the second. -/
theorem exact_match_second_not_chosen :
    isQuestion (js "How are you?") = true ∧
    selectContextByPossibility asciiTables [smalltalkEntry] (js "How are you?") =
      some smalltalkEntry ∧
    ¬ (∀ p ∈ smalltalkEntry.Conversation,
        levenshteinDistance (normalizeText asciiTables (js "How are you?"))
          (normalizeText asciiTables p.Question) = 0 →
        ∀ (g : Rand) (k : Nat),
          choosePair asciiTables [smalltalkEntry] g k (js "How are you?") =
            Except.ok (some p, k)) := by
  refine ⟨by decide, select_how_smalltalk, ?_⟩
  intro h
  have h2 := h ⟨js "how are you", js "Great"⟩ (by decide) (by decide)
    (constRand 1 1 (by decide)) 0
  have h1 := choosePair_question asciiTables [smalltalkEntry] smalltalkEntry
    (js "How are you?") ⟨js "How are you?", js "Fine"⟩ [] [⟨js "how are you", js "Great"⟩]
    select_how_smalltalk (by decide) rfl (by decide) (by decide) (by decide)
    (constRand 1 1 (by decide)) 0
  rw [h1] at h2
  simp only [Except.ok.injEq, Prod.mk.injEq, Option.some.injEq, and_true] at h2
  exact absurd h2 (by decide)

/-- C8, amended: for a question input and the selected entry, the first pair of
`Conversation` whose normalized `Question` is at distance 0 from the normalized
input is the chosen pair, for every random source. -/
theorem exact_match_first_chosen (uni : Str → Str) (kb : List ContextEntry)
    (entry : ContextEntry) (userInput : Str) (p : ConversationPair)
    (pre post : List ConversationPair)
    (hSel : selectContextByPossibility uni kb userInput = some entry)
    (hQ : isQuestion userInput = true)
    (hConv : entry.Conversation = pre ++ p :: post)
    (hExact : levenshteinDistance (normalizeText uni userInput)
      (normalizeText uni p.Question) = 0)
    (hFirst : ∀ x ∈ pre, levenshteinDistance (normalizeText uni userInput)
      (normalizeText uni x.Question) ≠ 0)
    (g : Rand) (k : Nat) :
    choosePair uni kb g k userInput = Except.ok (some p, k) := by
  have h0 : pairDistance uni userInput p = 0 := hExact
  apply choosePair_question uni kb entry userInput p pre post hSel hQ hConv
  · intro x hx
    have := hFirst x hx
    rw [h0]
    exact Nat.pos_of_ne_zero this
  · intro x _
    rw [h0]
    exact Nat.zero_le _
  · rw [h0]
    exact Nat.zero_le _

/-- Witness of C8 as amended: the first of the two pairs of `smalltalkEntry` at
distance 0 is chosen. -/
theorem exact_match_first_chosen_witness :
    isQuestion (js "How are you?") = true ∧
    levenshteinDistance (normalizeText asciiTables (js "How are you?"))
      (normalizeText asciiTables (js "How are you?")) = 0 ∧
    choosePair asciiTables [smalltalkEntry] (constRand 1 1 (by decide)) 0 (js "How are you?") =
      Except.ok (some ⟨js "How are you?", js "Fine"⟩, 0) :=
  ⟨by decide, by decide,
    exact_match_first_chosen asciiTables [smalltalkEntry] smalltalkEntry (js "How are you?")
      ⟨js "How are you?", js "Fine"⟩ [] [⟨js "how are you", js "Great"⟩]
      select_how_smalltalk (by decide) rfl (by decide) (by decide)
      (constRand 1 1 (by decide)) 0⟩

/-! ## The random pair -/

theorem roundDouble_small (N : Nat) (h : N < 2 ^ 53) : roundDouble N = N := by
  unfold roundDouble
  rw [if_pos h]

theorem roundDouble_large (N : Nat) (h : 2 ^ 53 ≤ N) :
    ∃ s, 1 ≤ s ∧ 2 ^ (s + 52) ≤ N ∧ N < 2 ^ (s + 53) ∧
      N / 2 ^ s * 2 ^ s ≤ roundDouble N ∧ roundDouble N ≤ N + 2 ^ (s - 1) := by
  have hne : N ≠ 0 := by
    have : 0 < 2 ^ 53 := Nat.two_pow_pos _
    omega
  have hlog : 53 ≤ Nat.log2 N := (Nat.le_log2 hne).mpr h
  have hlo : 2 ^ Nat.log2 N ≤ N := Nat.log2_self_le hne
  have hhi : N < 2 ^ (Nat.log2 N + 1) := Nat.lt_log2_self
  refine ⟨Nat.log2 N - 52, by omega, ?_, ?_, ?_, ?_⟩
  · rw [show Nat.log2 N - 52 + 52 = Nat.log2 N by omega]; exact hlo
  · rw [show Nat.log2 N - 52 + 53 = Nat.log2 N + 1 by omega]; exact hhi
  · unfold roundDouble
    rw [if_neg (by omega)]
    simp only []
    split
    · rw [Nat.add_mul]; omega
    · exact le_rfl
  · unfold roundDouble
    rw [if_neg (by omega)]
    simp only []
    have hs : Nat.log2 N - 52 = (Nat.log2 N - 52 - 1) + 1 := by omega
    have hpow : 2 ^ (Nat.log2 N - 52) = 2 * 2 ^ (Nat.log2 N - 52 - 1) := by
      conv_lhs => rw [hs, Nat.pow_succ]
      rw [Nat.mul_comm]
    have hdm := Nat.div_add_mod N (2 ^ (Nat.log2 N - 52))
    rw [Nat.mul_comm] at hdm
    split
    · next hup =>
      rw [Nat.add_mul, Nat.one_mul]
      rcases hup with hup | hup
      · omega
      · omega
    · omega

theorem pick_lt (r : Draw) (n : Nat) (hn : 0 < n) : r.pick n < n := by
  unfold Draw.pick
  have hpos : 0 < 2 ^ r.exp := Nat.two_pow_pos _
  rw [Nat.div_lt_iff_lt_mul hpos]
  have hstep : (r.man + 1) * n ≤ n * 2 ^ r.exp := by
    rw [Nat.mul_comm n]
    exact Nat.mul_le_mul_right n r.lt_one
  by_cases hsmall : r.man * n < 2 ^ 53
  · rw [roundDouble_small _ hsmall]
    rw [Nat.add_mul, Nat.one_mul] at hstep
    omega
  · obtain ⟨s, hs, hlo, _, _, hround⟩ := roundDouble_large (r.man * n) (by omega)
    have hn2 : 2 ^ (s - 1) < n := by
      by_contra hcon
      have hle : n ≤ 2 ^ (s - 1) := by omega
      have h1 : r.man * n ≤ r.man * 2 ^ (s - 1) := Nat.mul_le_mul_left _ hle
      have h2 : r.man * 2 ^ (s - 1) < 2 ^ 53 * 2 ^ (s - 1) :=
        Nat.mul_lt_mul_of_pos_right r.man_lt (Nat.two_pow_pos _)
      have h3 : 2 ^ 53 * 2 ^ (s - 1) = 2 ^ (s + 52) := by
        rw [← Nat.pow_add]
        congr 1
        omega
      omega
    rw [Nat.add_mul, Nat.one_mul] at hstep
    omega

theorem exists_pick (n i : Nat) (hi : i < n) (hn : n < 2 ^ 32) :
    ∃ r : Draw, r.exp = 52 ∧ r.pick n = i := by
  have hnpos : 0 < n := by omega
  have hdm := Nat.div_add_mod (i * 2 ^ 52 + n - 1) n
  have hmod := Nat.mod_lt (i * 2 ^ 52 + n - 1) hnpos
  have hi52 : i * 2 ^ 52 + 2 ^ 52 ≤ n * 2 ^ 52 := by
    have : (i + 1) * 2 ^ 52 ≤ n * 2 ^ 52 := Nat.mul_le_mul_right _ hi
    rw [Nat.add_mul, Nat.one_mul] at this
    exact this
  have h32 : (2 : Nat) ^ 32 < 2 ^ 52 := by decide
  have hman : (i * 2 ^ 52 + n - 1) / n < 2 ^ 52 := by
    by_contra hcon
    have : n * 2 ^ 52 ≤ n * ((i * 2 ^ 52 + n - 1) / n) := Nat.mul_le_mul_left _ (by omega)
    omega
  have h5253 : (2 : Nat) ^ 52 < 2 ^ 53 := by decide
  refine ⟨⟨(i * 2 ^ 52 + n - 1) / n, 52, by omega, by decide, hman⟩, rfl, ?_⟩
  unfold Draw.pick
  simp only []
  have hN : (i * 2 ^ 52 + n - 1) / n * n = n * ((i * 2 ^ 52 + n - 1) / n) := Nat.mul_comm _ _
  rw [hN]
  have hlo : i * 2 ^ 52 ≤ n * ((i * 2 ^ 52 + n - 1) / n) := by omega
  have hhi : n * ((i * 2 ^ 52 + n - 1) / n) ≤ i * 2 ^ 52 + n - 1 := by omega
  apply Nat.div_eq_of_lt_le
  · by_cases hsmall : n * ((i * 2 ^ 52 + n - 1) / n) < 2 ^ 53
    · rw [roundDouble_small _ hsmall]; exact hlo
    · obtain ⟨s, hs, hslo, _, hdown, _⟩ := roundDouble_large _ (Nat.le_of_not_lt hsmall)
      refine le_trans ?_ hdown
      have hs84 : s + 52 < 84 := by
        have : (2 : Nat) ^ (s + 52) < 2 ^ 84 := by
          have h84 : n * 2 ^ 52 < 2 ^ 32 * 2 ^ 52 :=
            Nat.mul_lt_mul_of_pos_right hn (Nat.two_pow_pos _)
          have : (2 : Nat) ^ 32 * 2 ^ 52 = 2 ^ 84 := by rw [← Nat.pow_add]
          omega
        exact (Nat.pow_lt_pow_iff_right (by decide)).mp this
      have hdvd : 2 ^ s ∣ i * 2 ^ 52 :=
        Dvd.dvd.mul_left (Nat.pow_dvd_pow 2 (by omega)) i
      calc i * 2 ^ 52 = i * 2 ^ 52 / 2 ^ s * 2 ^ s := (Nat.div_mul_cancel hdvd).symm
        _ ≤ n * ((i * 2 ^ 52 + n - 1) / n) / 2 ^ s * 2 ^ s :=
          Nat.mul_le_mul_right _ (Nat.div_le_div_right hlo)
  · rw [Nat.succ_mul]
    by_cases hsmall : n * ((i * 2 ^ 52 + n - 1) / n) < 2 ^ 53
    · rw [roundDouble_small _ hsmall]; omega
    · obtain ⟨s, hs, hslo, _, _, hup⟩ := roundDouble_large _ (Nat.le_of_not_lt hsmall)
      have hs84 : s + 52 < 84 := by
        have : (2 : Nat) ^ (s + 52) < 2 ^ 84 := by
          have h84 : n * 2 ^ 52 < 2 ^ 32 * 2 ^ 52 :=
            Nat.mul_lt_mul_of_pos_right hn (Nat.two_pow_pos _)
          have : (2 : Nat) ^ 32 * 2 ^ 52 = 2 ^ 84 := by rw [← Nat.pow_add]
          omega
        exact (Nat.pow_lt_pow_iff_right (by decide)).mp this
      have hp : 2 ^ (s - 1) ≤ 2 ^ 31 := Nat.pow_le_pow_right (by decide) (by omega)
      have h31 : (2 : Nat) ^ 31 + 2 ^ 32 < 2 ^ 52 := by decide
      omega
theorem pick_eq (r : Draw) (n : Nat) : r.pick n = roundDouble (r.man * n) / 2 ^ r.exp := by
  unfold Draw.pick
  rfl

theorem log2_eq_of_bounds (N k : Nat) (h1 : 2 ^ k ≤ N) (h2 : N < 2 ^ (k + 1)) :
    Nat.log2 N = k := by
  have hne : N ≠ 0 := by
    have : 0 < 2 ^ k := Nat.two_pow_pos _
    omega
  have ha : k ≤ Nat.log2 N := (Nat.le_log2 hne).mpr h1
  have hb : Nat.log2 N < k + 1 := (Nat.log2_lt hne).mpr h2
  omega

theorem roundDouble_third : roundDouble 18014398509481983 = 18014398509481984 := by
  unfold roundDouble
  rw [if_neg (by norm_num), log2_eq_of_bounds _ 53 (by norm_num) (by norm_num)]
  norm_num

/-- The product is rounded before it is floored: for the double nearest to
one third and `n = 3` the product `1 - 2 ^ -54` is rounded to 1 and the index
is 1, where the floor of the exact product is 0. -/
theorem pick_thirdDraw :
    thirdDraw.pick 3 = 1 ∧ thirdDraw.man * 3 / 2 ^ thirdDraw.exp = 0 := by
  have h4 : roundDouble (thirdDraw.man * 3) = 18014398509481984 := by
    simp only [thirdDraw]
    rw [show 6004799503160661 * 3 = 18014398509481983 by norm_num, roundDouble_third]
  have h1 : (18014398509481984 : Nat) / 2 ^ 54 = 1 := by norm_num
  constructor
  · rw [pick_eq, h4]
    exact h1
  · simp only [thirdDraw]
    norm_num

theorem pair_foldl_far (uni : Str → Str) (userInput : Str) (l : List ConversationPair)
    (h : ∀ x ∈ l, 5 < pairDistance uni userInput x) :
    ∀ best : Option ConversationPair × Option Nat,
      (∀ d, best.2 = some d → 5 < d) →
      ∀ d, (l.foldl (pairStep uni (normalizeText uni userInput)) best).2 = some d → 5 < d := by
  induction l with
  | nil => intro best hbest d hd; exact hbest d hd
  | cons x l ih =>
    intro best hbest
    rw [List.foldl_cons]
    apply ih (fun y hy => h y (List.mem_cons_of_mem _ hy))
    intro d hd
    rw [pairStep_eq] at hd
    split at hd
    · simp only [Option.some.injEq] at hd
      rw [← hd]
      exact h x (List.mem_cons_self _ _)
    · exact hbest d hd

theorem choosePair_random (uni : Str → Str) (kb : List ContextEntry) (entry : ContextEntry)
    (userInput : Str)
    (hSel : selectContextByPossibility uni kb userInput = some entry)
    (hPath : isQuestion userInput = false ∨
      ∀ p ∈ entry.Conversation, 5 < pairDistance uni userInput p)
    (g : Rand) (k : Nat) :
    choosePair uni kb g k userInput = Except.ok (randomPair g k entry, k + 1) := by
  unfold choosePair
  rw [hSel]
  simp only []
  split
  · next hQ =>
    rcases hPath with hq | hfar
    · rw [hq] at hQ; exact absurd hQ (by decide)
    · split
      · next bestPair bestDistance heq =>
        have h5 := pair_foldl_far uni userInput entry.Conversation hfar (none, none)
          (fun d hd => by simp at hd) bestDistance
          (by
            have : (findBestConversationPair uni entry userInput).2 = some bestDistance := by
              rw [heq]
            exact this)
        rw [if_neg (by omega)]
      · rfl
  · rfl

/-- C9: random pair path. For the selected entry with a non-empty
`Conversation` of length `n` (an array, so `n < 2 ^ 32`), when the input is no
question or every pair is at a distance above 5 from it, the chosen pair is
`Conversation[Math.floor(r * n)]` for the draw `r`, the index being computed
in doubles as the code does; this index is below `n`, one draw is taken, and
every pair of `Conversation` is the chosen pair for some random source, whose
draws are doubles with 52 bits after the point. -/
theorem random_pair_path (uni : Str → Str) (kb : List ContextEntry) (entry : ContextEntry)
    (userInput : Str)
    (hSel : selectContextByPossibility uni kb userInput = some entry)
    (hne : entry.Conversation ≠ [])
    (hLen : entry.Conversation.length < 2 ^ 32)
    (hPath : isQuestion userInput = false ∨
      ∀ p ∈ entry.Conversation, 5 < levenshteinDistance (normalizeText uni userInput)
        (normalizeText uni p.Question)) :
    (∀ (g : Rand) (k : Nat),
      ∃ h : (g k).pick entry.Conversation.length < entry.Conversation.length,
        choosePair uni kb g k userInput =
          Except.ok (some (entry.Conversation.get ⟨(g k).pick entry.Conversation.length, h⟩),
            k + 1)) ∧
    (∀ p ∈ entry.Conversation, ∃ g : Rand, (∀ k : Nat, (g k).exp = 52) ∧ ∀ k : Nat,
      choosePair uni kb g k userInput = Except.ok (some p, k + 1)) := by
  have hn : 0 < entry.Conversation.length := List.length_pos.mpr hne
  constructor
  · intro g k
    refine ⟨pick_lt (g k) _ hn, ?_⟩
    rw [choosePair_random uni kb entry userInput hSel hPath g k]
    unfold randomPair
    rw [List.get?_eq_get (pick_lt (g k) _ hn)]
  · intro p hp
    obtain ⟨i, hi⟩ := List.mem_iff_get.mp hp
    obtain ⟨r, hexp, hpick⟩ := exists_pick entry.Conversation.length i.1 i.2 hLen
    refine ⟨fun _ => r, fun _ => hexp, fun k => ?_⟩
    rw [choosePair_random uni kb entry userInput hSel hPath _ k]
    unfold randomPair
    simp only [hpick]
    rw [List.get?_eq_get i.2, hi]

theorem possibility_tell_greetings :
    possibility asciiTables (js "tell me more") greetingsEntry < 1 / 2 := by
  rw [possibility_eq_div asciiTables _ greetingsEntry 0 1 (by decide) (by decide) (by decide)]
  norm_num

theorem select_tell_greetings :
    selectContextByPossibility asciiTables [greetingsEntry] (js "tell me more") =
      some greetingsEntry :=
  select_fallback_largest_at asciiTables [] [] greetingsEntry (js "tell me more")
    (Or.inl (by decide))
    (by
      intro c hc
      simp only [List.nil_append, List.mem_singleton] at hc
      rw [hc]
      exact possibility_tell_greetings)
    (by decide) (by decide)

/-- Witness of C9: the input `"tell me more"` is no question, the greetings
entry has two pairs, the draw 0.5 chooses the second of them, and each of
them is chosen for some random source. -/
theorem random_pair_path_witness :
    selectContextByPossibility asciiTables [greetingsEntry] (js "tell me more") =
      some greetingsEntry ∧
    isQuestion (js "tell me more") = false ∧
    greetingsEntry.Conversation ≠ [] ∧
    greetingsEntry.Conversation.length < 2 ^ 32 ∧
    choosePair asciiTables [greetingsEntry] (constRand 1 1 (by decide)) 0 (js "tell me more") =
      Except.ok (some ⟨js "How are you?", js "I am fine"⟩, 1) ∧
    (∀ p ∈ greetingsEntry.Conversation, ∃ g : Rand, (∀ k : Nat, (g k).exp = 52) ∧ ∀ k : Nat,
      choosePair asciiTables [greetingsEntry] g k (js "tell me more") =
        Except.ok (some p, k + 1)) :=
  have h := random_pair_path asciiTables [greetingsEntry] greetingsEntry (js "tell me more")
    select_tell_greetings (by decide) (by decide) (Or.inl (by decide))
  have hhalf : choosePair asciiTables [greetingsEntry] (constRand 1 1 (by decide)) 0
      (js "tell me more") = Except.ok (some ⟨js "How are you?", js "I am fine"⟩, 1) := by
    obtain ⟨_, heq⟩ := h.1 (constRand 1 1 (by decide)) 0
    rw [heq]
    rfl
  ⟨select_tell_greetings, by decide, by decide, by decide, hhalf, h.2⟩

/-! ## The bigram walk on seeds without inherited property names -/

theorem lookup_pushWord (word nextWord key : Str) (model : Model) :
    (pushWord word nextWord model).lookup key =
      if key = word then some ((model.lookup word).getD [] ++ [nextWord])
      else model.lookup key := by
  induction model with
  | nil =>
    by_cases h : key = word
    · subst h
      simp [pushWord, List.lookup]
    · have hb : (key == word) = false := by simpa using h
      simp [pushWord, List.lookup, hb, h]
  | cons kv rest ih =>
    obtain ⟨k0, arr⟩ := kv
    by_cases hk : k0 = word
    · subst hk
      by_cases h : key = k0
      · subst h
        simp [pushWord, List.lookup]
      · have hb : (key == k0) = false := by simpa using h
        simp [pushWord, List.lookup, hb, h]
    · by_cases h : key = k0
      · subst h
        simp [pushWord, List.lookup, hk]
      · have hb : (key == k0) = false := by simpa using h
        by_cases hw : key = word
        · subst hw
          simp [pushWord, List.lookup, hk, hb, ih]
        · simp [pushWord, List.lookup, hk, hb, ih, hw]

theorem getProp_of_not_proto (model : Model) (key : Str) (h : key ∉ protoKeys) :
    getProp model key =
      match model.lookup key with
      | some arr => Lookup.own arr
      | none => Lookup.absent := by
  unfold getProp
  cases model.lookup key with
  | some arr => rfl
  | none =>
    simp [h]

theorem modelOk_pushWord (uni : Str → Str) (ps : List (Str × Str)) (model : Model)
    (w : Str × Str) (h : ModelOk uni ps model) :
    ModelOk uni (ps ++ [w]) (pushWord (toLowerCase uni w.1) (toLowerCase uni w.2) model) := by
  intro key arr hl
  rw [lookup_pushWord] at hl
  split at hl
  · next hk =>
    simp only [Option.some.injEq] at hl
    subst hl
    refine ⟨by simp, ?_⟩
    intro x hx
    rw [List.mem_append, List.mem_singleton] at hx
    rcases hx with hx | rfl
    · cases hlk : model.lookup (toLowerCase uni w.1) with
      | none => rw [hlk] at hx; simp at hx
      | some arr0 =>
        rw [hlk] at hx
        obtain ⟨v, hv, h1, h2⟩ := (h _ arr0 hlk).2 x hx
        exact ⟨v, List.mem_append_left _ hv, h1.trans hk.symm, h2⟩
    · exact ⟨w, by simp, hk.symm, rfl⟩
  · obtain ⟨h1, h2⟩ := h key arr hl
    refine ⟨h1, fun x hx => ?_⟩
    obtain ⟨v, hv, h3, h4⟩ := h2 x hx
    exact ⟨v, List.mem_append_left _ hv, h3, h4⟩

theorem buildGo_ok (uni : Str → Str) (ws : List (Str × Str)) :
    ∀ (ps : List (Str × Str)) (model : Model), ModelOk uni ps model →
      (∀ w ∈ ws, toLowerCase uni w.1 ∉ protoKeys) →
      ∃ model1, buildGo uni model ws = Except.ok model1 ∧ ModelOk uni (ps ++ ws) model1 := by
  induction ws with
  | nil =>
    intro ps model h _
    exact ⟨model, rfl, by simpa using h⟩
  | cons w ws ih =>
    intro ps model h hclean
    have hw := hclean w (List.mem_cons_self _ _)
    have hstep : buildStep uni model w =
        Except.ok (pushWord (toLowerCase uni w.1) (toLowerCase uni w.2) model) := by
      unfold buildStep
      simp only []
      rw [getProp_of_not_proto model _ hw]
      cases model.lookup (toLowerCase uni w.1) <;> rfl
    obtain ⟨model1, h1, h2⟩ := ih (ps ++ [w]) _ (modelOk_pushWord uni ps model w h)
      (fun v hv => hclean v (List.mem_cons_of_mem _ hv))
    refine ⟨model1, ?_, by simpa using h2⟩
    simp only [buildGo, hstep]
    exact h1

theorem splitGo_ne_nil (s : Str) : ∀ (inRun : Bool) (cur : Str), splitGo inRun cur s ≠ [] := by
  induction s with
  | nil => intro inRun cur; simp [splitGo]
  | cons c cs ih =>
    intro inRun cur
    unfold splitGo
    split
    · split
      · exact ih _ _
      · simp
    · exact ih _ _

theorem splitWs_ne_nil (s : Str) : splitWs s ≠ [] :=
  splitGo_ne_nil s false []

theorem walk_ok (uni : Str → Str) (seed : Str) (model : Model) (g : Rand)
    (hModel : ModelOk uni ((splitWs seed).zip (splitWs seed).tail) model)
    (hClean : ∀ w ∈ splitWs seed, toLowerCase uni (toLowerCase uni w) ∉ protoKeys) :
    ∀ (n k : Nat) (ws : List Str), ws ≠ [] →
      (∀ h : ws ≠ [], toLowerCase uni (ws.getLast h) ∉ protoKeys) →
      List.Chain' (follows uni seed) ws →
      ∃ ws1 k1, walk uni model g n k (ws.map some) = Except.ok (ws1.map some, k1) ∧
        ws1.head? = ws.head? ∧ List.Chain' (follows uni seed) ws1 ∧
        ws1.length ≤ ws.length + n ∧ k1 ≤ k + n := by
  intro n
  induction n with
  | zero =>
    intro k ws _ _ hchain
    exact ⟨ws, k, rfl, rfl, hchain, le_rfl, le_rfl⟩
  | succ n ih =>
    intro k ws hne hlast hchain
    have hgl : (ws.map some).getLast? = some (some (ws.getLast hne)) := by
      rw [List.getLast?_map, List.getLast?_eq_getLast ws hne]
      rfl
    unfold walk
    rw [hgl]
    simp only []
    rw [getProp_of_not_proto model _ (hlast hne)]
    cases hlk : model.lookup (toLowerCase uni (ws.getLast hne)) with
    | none =>
      exact ⟨ws, k, rfl, rfl, hchain, by omega, by omega⟩
    | some arr =>
      simp only []
      obtain ⟨harr, hsucc⟩ := hModel _ arr hlk
      have hidx : (g k).pick arr.length < arr.length :=
        pick_lt (g k) _ (List.length_pos.mpr harr)
      rw [List.get?_eq_get hidx]
      have hx := hsucc _ (List.get_mem arr _ hidx)
      obtain ⟨w, hw, hw1, hw2⟩ := hx
      have hmap : ws.map some ++ [some (arr.get ⟨(g k).pick arr.length, hidx⟩)] =
          (ws ++ [arr.get ⟨(g k).pick arr.length, hidx⟩]).map some := by
        simp
      rw [hmap]
      have hw2mem : w.2 ∈ splitWs seed :=
        List.mem_of_mem_tail (List.of_mem_zip hw).2
      obtain ⟨ws1, k1, h1, h2, h3, h4, h5⟩ := ih (k + 1)
        (ws ++ [arr.get ⟨(g k).pick arr.length, hidx⟩]) (by simp)
        (by
          intro h
          rw [List.getLast_append_singleton, hw2]
          exact hClean _ hw2mem)
        (by
          apply List.Chain'.append hchain (List.chain'_singleton _)
          intro x hx y hy
          rw [List.getLast?_eq_getLast ws hne] at hx
          simp only [Option.mem_def, Option.some.injEq] at hx
          simp only [List.head?_cons, Option.mem_def, Option.some.injEq] at hy
          subst hx hy
          exact ⟨w, hw, hw1, hw2⟩)
      refine ⟨ws1, k1, h1, ?_, h3, ?_, by omega⟩
      · rw [h2]
        cases ws with
        | nil => exact absurd rfl hne
        | cons a as => rfl
      · rw [List.length_append, List.length_singleton] at h4
        omega

theorem joinSpace_map_some (ws : List Str) :
    joinSpace (ws.map some) = List.intercalate [32] ws := by
  unfold joinSpace
  rw [List.map_map]
  congr 1
  exact List.map_id _

/-- On a seed none of whose words is, in lower case, a property name inherited
from `Object.prototype`, the array `response` holds words only, and
`generateDynamicResponse` returns them joined by spaces and followed by `"."`;
the first emitted word is the first word of the seed, every next one follows
the one before in the seed, and there are at most as many emitted words as
words in the seed. -/
theorem generateDynamicResponse_clean (uni : Str → Str) (g : Rand) (k : Nat) (seed : Str)
    (hClean : ∀ w ∈ splitWs seed, toLowerCase uni w ∉ protoKeys ∧
      toLowerCase uni (toLowerCase uni w) ∉ protoKeys) :
    ∃ ws k1, responseArray uni g k seed = Except.ok (ws.map some, k1) ∧
      generateDynamicResponse uni g k seed =
        Except.ok (List.intercalate [32] ws ++ [46], k1) ∧
      ws.head? = (splitWs seed).head? ∧ List.Chain' (follows uni seed) ws ∧
      ws.length ≤ (splitWs seed).length ∧ k1 ≤ k + ((splitWs seed).length - 1) := by
  obtain ⟨model, hbuild, hok⟩ := buildGo_ok uni ((splitWs seed).zip (splitWs seed).tail) [] []
    (fun key arr h => by simp at h)
    (fun w hw => (hClean w.1 (List.of_mem_zip hw).1).1)
  rw [List.nil_append] at hok
  cases hwords : splitWs seed with
  | nil => exact absurd hwords (splitWs_ne_nil seed)
  | cons w0 rest =>
    have hw0 : w0 ∈ splitWs seed := by rw [hwords]; exact List.mem_cons_self _ _
    obtain ⟨ws, k1, h1, h2, h3, h4, h5⟩ := walk_ok uni seed model g hok
      (fun w hw => (hClean w hw).2) ((splitWs seed).length - 1) k [w0] (by simp)
      (fun _ => (hClean w0 hw0).1) (List.chain'_singleton _)
    have hinit : [(splitWs seed).head?] = [w0].map some := by rw [hwords]; rfl
    refine ⟨ws, k1, ?_, ?_, ?_, h3, ?_, ?_⟩
    · unfold responseArray buildMarkovModel
      simp only []
      rw [hbuild]
      simp only []
      rw [hinit, h1]
    · unfold generateDynamicResponse buildMarkovModel
      simp only []
      rw [hbuild]
      simp only []
      rw [hinit, h1]
      simp only []
      rw [joinSpace_map_some]
    · rw [h2]; rfl
    · have hlen : (splitWs seed).length = rest.length + 1 := by rw [hwords]; rfl
      simp only [List.length_cons, List.length_nil] at h4 ⊢
      omega
    · rw [hwords] at h5
      exact h5

/-! ## The bigram walk on inherited property names -/

/-- C10: at the seed `"a a constructor"` with a first draw of 0.5 the code
returns `"a constructor ."`: after `"constructor"` the walk reads
`model["constructor"]`, finds the function inherited from `Object.prototype`
and emits `undefined`, which `join` writes as an empty word; no word follows
`"constructor"` in the seed. At the seed `"constructor hello"` the code raises a
`TypeError` in `buildMarkovModel`. -/
theorem generateDynamicResponse_inherited :
    generateDynamicResponse asciiTables (constRand 1 1 (by decide)) 0 (js "a a constructor") =
      Except.ok (js "a constructor .", 2) ∧
    generateDynamicResponse asciiTables (constRand 1 1 (by decide)) 0 (js "constructor hello") =
      Except.error JsError.typeError := by
  constructor <;> rfl

/-! ## Re-ranking -/

theorem jaccardSimilarity_nonneg (uni : Str → Str) (text1 text2 : Str) :
    0 ≤ jaccardSimilarity uni text1 text2 := by
  unfold jaccardSimilarity
  simp only []
  split
  · exact le_rfl
  · exact div_nonneg (Nat.cast_nonneg _) (Nat.cast_nonneg _)

theorem bestStep_eq (uni : Str → Str) (baseResponse : Str) (best : Option Str × ℚ)
    (candidate : Str) :
    bestStep uni baseResponse best candidate =
      if jaccardSimilarity uni candidate baseResponse > best.2 then
        (some candidate, jaccardSimilarity uni candidate baseResponse)
      else best := rfl

theorem best_foldl_keep (uni : Str → Str) (baseResponse : Str) (l : List Str) :
    ∀ best : Option Str × ℚ,
      (∀ x ∈ l, jaccardSimilarity uni x baseResponse ≤ best.2) →
      l.foldl (bestStep uni baseResponse) best = best := by
  induction l with
  | nil => intro best _; rfl
  | cons x l ih =>
    intro best h
    rw [List.foldl_cons, bestStep_eq, if_neg (not_lt.mpr (h x (List.mem_cons_self _ _)))]
    exact ih best (fun y hy => h y (List.mem_cons_of_mem _ hy))

theorem best_foldl_first (uni : Str → Str) (baseResponse : Str) (c : Str)
    (pre post : List Str)
    (hpre : ∀ x ∈ pre, jaccardSimilarity uni x baseResponse <
      jaccardSimilarity uni c baseResponse)
    (hpost : ∀ x ∈ post, jaccardSimilarity uni x baseResponse ≤
      jaccardSimilarity uni c baseResponse) :
    ∀ best : Option Str × ℚ, best.2 < jaccardSimilarity uni c baseResponse →
      (pre ++ c :: post).foldl (bestStep uni baseResponse) best =
        (some c, jaccardSimilarity uni c baseResponse) := by
  induction pre with
  | nil =>
    intro best hbest
    rw [List.nil_append, List.foldl_cons, bestStep_eq, if_pos hbest]
    exact best_foldl_keep uni baseResponse post _ hpost
  | cons x pre ih =>
    intro best hbest
    rw [List.cons_append, List.foldl_cons]
    apply ih (fun y hy => hpre y (List.mem_cons_of_mem _ hy))
    rw [bestStep_eq]
    split
    · exact hpre x (List.mem_cons_self _ _)
    · exact hbest

/-- The candidate returned by `chooseBestCandidate` is the first candidate with
the highest score. -/
theorem chooseBestCandidate_first (uni : Str → Str) (baseResponse : Str) (c : Str)
    (pre post : List Str)
    (hpre : ∀ x ∈ pre, jaccardSimilarity uni x baseResponse <
      jaccardSimilarity uni c baseResponse)
    (hpost : ∀ x ∈ post, jaccardSimilarity uni x baseResponse ≤
      jaccardSimilarity uni c baseResponse) :
    chooseBestCandidate uni (pre ++ c :: post) baseResponse = some c := by
  unfold chooseBestCandidate
  by_cases hpos : 0 < jaccardSimilarity uni c baseResponse
  · rw [best_foldl_first uni baseResponse c pre post hpre hpost _ hpos]
  · have hzero : jaccardSimilarity uni c baseResponse ≤ 0 := not_lt.mp hpos
    cases pre with
    | nil =>
      rw [List.nil_append, List.head?_cons, List.foldl_cons, bestStep_eq, if_neg hpos]
      rw [best_foldl_keep uni baseResponse post _ (fun x hx => (hpost x hx).trans hzero)]
    | cons x pre =>
      have h1 := hpre x (List.mem_cons_self _ _)
      have h2 := jaccardSimilarity_nonneg uni x baseResponse
      exact absurd (h2.trans_lt h1) hpos

theorem jaccardSimilarity_eq_div (uni : Str → Str) (text1 text2 : Str) (m n : Nat)
    (hm : (newSet ((newSet (splitWs (normalizeText uni text1))).filter
      (fun x => (newSet (splitWs (normalizeText uni text2))).contains x))).length = m)
    (hn : (newSet (newSet (splitWs (normalizeText uni text1)) ++
      newSet (splitWs (normalizeText uni text2)))).length = n)
    (hpos : n ≠ 0) :
    jaccardSimilarity uni text1 text2 = (m : ℚ) / (n : ℚ) := by
  unfold jaccardSimilarity
  simp only []
  rw [hm, hn, if_neg hpos]

theorem chooseBestCandidate_hello :
    chooseBestCandidate asciiTables [js "hello.", js "hello there."] (js "hello there") =
      some (js "hello there.") := by
  apply chooseBestCandidate_first asciiTables (js "hello there") (js "hello there.")
    [js "hello."] []
  · intro x hx
    rw [List.mem_singleton] at hx
    rw [hx, jaccardSimilarity_eq_div asciiTables (js "hello.") (js "hello there") 1 2
        (by decide) (by decide) (by decide),
      jaccardSimilarity_eq_div asciiTables (js "hello there.") (js "hello there") 2 2
        (by decide) (by decide) (by decide)]
    norm_num
  · intro x hx
    cases hx

/-- C11: re-ranking. For every non-empty list of candidates and every base
answer, `chooseBestCandidate` returns the first candidate `c` of the list with
the highest `jaccardSimilarity` to the base answer: the candidates before `c`
score less and the candidates after `c` score no more; and when every
candidate scores 0 the first candidate is returned. -/
theorem chooseBestCandidate_spec (uni : Str → Str) (candidates : List Str)
    (baseResponse : Str) (hne : candidates ≠ []) :
    (∃ pre c post, candidates = pre ++ c :: post ∧
      (∀ x ∈ pre, jaccardSimilarity uni x baseResponse <
        jaccardSimilarity uni c baseResponse) ∧
      (∀ x ∈ post, jaccardSimilarity uni x baseResponse ≤
        jaccardSimilarity uni c baseResponse) ∧
      chooseBestCandidate uni candidates baseResponse = some c) ∧
    ((∀ x ∈ candidates, jaccardSimilarity uni x baseResponse = 0) →
      chooseBestCandidate uni candidates baseResponse = candidates.head?) := by
  constructor
  · obtain ⟨pre, c, post, hdec, hpre, hpost⟩ :=
      exists_first_max (fun x => jaccardSimilarity uni x baseResponse) candidates hne
    refine ⟨pre, c, post, hdec, hpre, hpost, ?_⟩
    rw [hdec]
    exact chooseBestCandidate_first uni baseResponse c pre post hpre hpost
  · intro hzero
    cases candidates with
    | nil => exact absurd rfl hne
    | cons c post =>
      have h := chooseBestCandidate_first uni baseResponse c [] post
        (fun x hx => by cases hx)
        (fun x hx => by
          rw [hzero x (List.mem_cons_of_mem _ hx), hzero c (List.mem_cons_self _ _)])
      rw [List.nil_append] at h
      rw [h, List.head?_cons]

/-- Witness of C11: of the two candidates `"hello."` (score 1/2) and
`"hello there."` (score 1) for the base answer `"hello there"`, the second is
returned. -/
theorem chooseBestCandidate_spec_witness :
    [js "hello.", js "hello there."] ≠ [] ∧
    ((∃ pre c post, [js "hello.", js "hello there."] = pre ++ c :: post ∧
      (∀ x ∈ pre, jaccardSimilarity asciiTables x (js "hello there") <
        jaccardSimilarity asciiTables c (js "hello there")) ∧
      (∀ x ∈ post, jaccardSimilarity asciiTables x (js "hello there") ≤
        jaccardSimilarity asciiTables c (js "hello there")) ∧
      chooseBestCandidate asciiTables [js "hello.", js "hello there."] (js "hello there") =
        some c) ∧
    ((∀ x ∈ [js "hello.", js "hello there."],
        jaccardSimilarity asciiTables x (js "hello there") = 0) →
      chooseBestCandidate asciiTables [js "hello.", js "hello there."] (js "hello there") =
        [js "hello.", js "hello there."].head?)) ∧
    chooseBestCandidate asciiTables [js "hello.", js "hello there."] (js "hello there") =
      some (js "hello there.") :=
  ⟨by decide,
    chooseBestCandidate_spec asciiTables [js "hello.", js "hello there."] (js "hello there")
      (by decide),
    chooseBestCandidate_hello⟩

/-! ## Symmetry of the distance -/

/-- C15: `levenshteinDistance` is symmetric: for all strings `a` and `b`,
`levenshteinDistance(a, b) = levenshteinDistance(b, a)`. -/
theorem levenshteinDistance_comm (a b : Str) :
    levenshteinDistance a b = levenshteinDistance b a := by
  rw [levenshteinDistance_eq, levenshteinDistance_eq, lev_comm]

/-! ## Jaccard similarity of a text with itself -/

theorem setAdd_of_mem (acc : List Str) (x : Str) (h : x ∈ acc) : setAdd acc x = acc := by
  unfold setAdd
  rw [if_pos (by simpa using h)]

theorem setAdd_of_not_mem (acc : List Str) (x : Str) (h : x ∉ acc) :
    setAdd acc x = acc ++ [x] := by
  unfold setAdd
  rw [if_neg (by simpa using h)]

theorem foldl_setAdd_of_subset (xs : List Str) :
    ∀ acc : List Str, (∀ x ∈ xs, x ∈ acc) → xs.foldl setAdd acc = acc := by
  induction xs with
  | nil => intro acc _; rfl
  | cons x xs ih =>
    intro acc h
    rw [List.foldl_cons, setAdd_of_mem acc x (h x (List.mem_cons_self _ _))]
    exact ih acc (fun y hy => h y (List.mem_cons_of_mem _ hy))

theorem foldl_setAdd_of_nodup (xs : List Str) :
    ∀ acc : List Str, xs.Nodup → (∀ x ∈ xs, x ∉ acc) → xs.foldl setAdd acc = acc ++ xs := by
  induction xs with
  | nil => intro acc _ _; simp
  | cons x xs ih =>
    intro acc hnd h
    rw [List.nodup_cons] at hnd
    rw [List.foldl_cons, setAdd_of_not_mem acc x (h x (List.mem_cons_self _ _))]
    rw [ih (acc ++ [x]) hnd.2]
    · simp
    · intro y hy hmem
      rw [List.mem_append, List.mem_singleton] at hmem
      rcases hmem with hmem | rfl
      · exact h y (List.mem_cons_of_mem _ hy) hmem
      · exact hnd.1 hy

theorem foldl_setAdd_nodup (xs : List Str) :
    ∀ acc : List Str, acc.Nodup → (xs.foldl setAdd acc).Nodup := by
  induction xs with
  | nil => intro acc h; exact h
  | cons x xs ih =>
    intro acc h
    rw [List.foldl_cons]
    apply ih
    by_cases hx : x ∈ acc
    · rw [setAdd_of_mem acc x hx]; exact h
    · rw [setAdd_of_not_mem acc x hx]
      rw [List.nodup_append]
      refine ⟨h, List.nodup_singleton x, ?_⟩
      intro a ha hb
      rw [List.mem_singleton] at hb
      subst hb
      exact hx ha

theorem foldl_setAdd_length (xs : List Str) :
    ∀ acc : List Str, acc.length ≤ (xs.foldl setAdd acc).length := by
  induction xs with
  | nil => intro acc; exact le_rfl
  | cons x xs ih =>
    intro acc
    rw [List.foldl_cons]
    refine le_trans ?_ (ih _)
    unfold setAdd
    split
    · exact le_rfl
    · simp

theorem newSet_nodup (xs : List Str) : (newSet xs).Nodup :=
  foldl_setAdd_nodup xs [] List.nodup_nil

theorem newSet_of_nodup (xs : List Str) (h : xs.Nodup) : newSet xs = xs := by
  unfold newSet
  rw [foldl_setAdd_of_nodup xs [] h (fun x _ hx => by cases hx)]
  simp

theorem newSet_length_pos (xs : List Str) (h : xs ≠ []) : 0 < (newSet xs).length := by
  cases xs with
  | nil => exact absurd rfl h
  | cons x xs =>
    unfold newSet
    rw [List.foldl_cons]
    have := foldl_setAdd_length xs (setAdd [] x)
    have h1 : (setAdd [] x).length = 1 := by simp [setAdd]
    omega

/-- The similarity of any text with itself is 1. -/
theorem jaccardSimilarity_self (uni : Str → Str) (s : Str) : jaccardSimilarity uni s s = 1 := by
  unfold jaccardSimilarity
  simp only []
  have hnd := newSet_nodup (splitWs (normalizeText uni s))
  have hpos := newSet_length_pos (splitWs (normalizeText uni s)) (splitWs_ne_nil _)
  have hfilter : (newSet (splitWs (normalizeText uni s))).filter
      (fun x => (newSet (splitWs (normalizeText uni s))).contains x) =
      newSet (splitWs (normalizeText uni s)) := by
    rw [List.filter_eq_self]
    intro x hx
    simpa using hx
  have hunion : newSet (newSet (splitWs (normalizeText uni s)) ++
      newSet (splitWs (normalizeText uni s))) = newSet (splitWs (normalizeText uni s)) := by
    conv_lhs => rw [newSet, List.foldl_append]
    have h1 : (newSet (splitWs (normalizeText uni s))).foldl setAdd [] =
        newSet (splitWs (normalizeText uni s)) := newSet_of_nodup _ hnd
    rw [h1]
    exact foldl_setAdd_of_subset _ _ (fun x hx => hx)
  rw [hfilter, newSet_of_nodup _ hnd, hunion]
  have hne : (newSet (splitWs (normalizeText uni s))).length ≠ 0 := by omega
  rw [if_neg hne]
  exact div_self (Nat.cast_ne_zero.mpr hne)

/-- C16: for every string `s` that is non-empty after normalization,
`jaccardSimilarity(s, s) = 1`. -/
theorem jaccardSimilarity_self_eq_one (uni : Str → Str) (s : Str)
    (_hne : normalizeText uni s ≠ []) : jaccardSimilarity uni s s = 1 :=
  jaccardSimilarity_self uni s

/-- Witness of C16: the text `"Hello, World!"` is normalized to
`"hello world"`. -/
theorem jaccardSimilarity_self_eq_one_witness :
    normalizeText asciiTables (js "Hello, World!") ≠ [] ∧
    jaccardSimilarity asciiTables (js "Hello, World!") (js "Hello, World!") = 1 :=
  ⟨by decide, jaccardSimilarity_self_eq_one asciiTables (js "Hello, World!") (by decide)⟩

/-! ## The end-to-end scenario -/

theorem pick_one (r : Draw) : r.pick 1 = 0 := by
  unfold Draw.pick
  rw [Nat.mul_one, roundDouble_small _ r.man_lt]
  exact Nat.div_eq_of_lt r.lt_one

theorem generate_hello_there (uni : Str → Str) (g : Rand) (k : Nat) :
    generateDynamicResponse uni g k (js "hello there") =
      Except.ok (js "hello there.", k + 1) := by
  have hbuild : buildMarkovModel uni (js "hello there") =
      Except.ok [(js "hello", [js "there"])] := rfl
  have hwords : splitWs (js "hello there") = [js "hello", js "there"] := rfl
  have hprop : getProp [(js "hello", [js "there"])] (toLowerCase uni (js "hello")) =
      Lookup.own [js "there"] := rfl
  unfold generateDynamicResponse
  rw [hbuild]
  simp only [hwords, List.length_cons, List.length_nil, List.head?_cons]
  have hwalk : walk uni [(js "hello", [js "there"])] g 1 k [some (js "hello")] =
      Except.ok ([some (js "hello"), some (js "there")], k + 1) := by
    unfold walk
    simp only [List.getLast?_singleton, hprop, List.length_singleton, pick_one]
    rfl
  rw [show 0 + 1 + 1 - 1 = 1 from rfl, hwalk]
  rfl

theorem generateMultiple_hello_there (uni : Str → Str) (g : Rand) :
    ∀ (n k : Nat), generateMultipleDynamicResponses uni g (js "hello there") n k =
      Except.ok (List.replicate n (js "hello there."), k + n) := by
  intro n
  induction n with
  | zero => intro k; rfl
  | succ n ih =>
    intro k
    unfold generateMultipleDynamicResponses
    rw [generate_hello_there]
    simp only [ih (k + 1), List.replicate_succ]
    rw [Nat.add_assoc, Nat.add_comm 1 n]

theorem chooseBestCandidate_mem (uni : Str → Str) (candidates : List Str)
    (baseResponse : Str) (hne : candidates ≠ []) :
    ∃ c ∈ candidates, chooseBestCandidate uni candidates baseResponse = some c := by
  obtain ⟨pre, c, post, hdec, hpre, hpost⟩ :=
    exists_first_max (fun x => jaccardSimilarity uni x baseResponse) candidates hne
  refine ⟨c, by rw [hdec]; simp, ?_⟩
  rw [hdec]
  exact chooseBestCandidate_first uni baseResponse c pre post hpre hpost

theorem scenario_response (uni : Str → Str) (g : Rand) (k : Nat) :
    getResponseFromContext uni scenarioKb g k (js "hi") =
      Except.ok (some (js "hello there."), k + 6) := by
  have hsel : selectContextByPossibility uni scenarioKb (js "hi") =
      some { Query := js "Greetings", Conversation := [⟨js "hi", js "hello there"⟩] } := rfl
  have hq : isQuestion (js "hi") = false := rfl
  have hpair : choosePair uni scenarioKb g k (js "hi") =
      Except.ok (some ⟨js "hi", js "hello there"⟩, k + 1) := by
    unfold choosePair
    rw [hsel]
    simp only [hq]
    unfold randomPair
    simp only [List.length_singleton, pick_one]
    rfl
  rw [getResponse_of_choosePair uni scenarioKb g k (k + 1) (js "hi") _ hpair]
  simp only [generateMultiple_hello_there]
  obtain ⟨c, hc, hbest⟩ := chooseBestCandidate_mem uni (List.replicate 5 (js "hello there."))
    (js "hello there") (by decide)
  rw [hbest, List.eq_of_mem_replicate hc]

/-- C12: end-to-end scenario. With the knowledge base
`[{Query: "Greetings", Conversation: [{Question: "hi", Answer: "hello there"}]}]`
and the input `"hi"`, for every random source `getResponseFromContext` returns
a string; it ends in `"."` and the words before the `"."` are words of
`"hello there"`. The string is `"hello there."` and six draws are taken. -/
theorem scenario_reply (uni : Str → Str) (g : Rand) (k : Nat) :
    ∃ reply : Str,
      getResponseFromContext uni scenarioKb g k (js "hi") = Except.ok (some reply, k + 6) ∧
      reply.getLast? = some 46 ∧
      (∀ w ∈ splitWs reply.dropLast, w ∈ splitWs (js "hello there")) ∧
      reply = js "hello there." :=
  ⟨js "hello there.", scenario_response uni g k, by decide, by decide, rfl⟩

/-! ## Empty knowledge base and empty conversation -/

theorem select_nil (uni : Str → Str) (userInput : Str) :
    selectContextByPossibility uni [] userInput = none := by
  unfold selectContextByPossibility
  simp only [List.find?_nil, ite_self, List.map_nil]
  rfl

/-- C13, counterexample: on the empty knowledge base the selector raises no
error: `getLargestQueryContext` and `selectContextByPossibility` return
`undefined`, for the inputs `"hi"` and `"zzz nonsense"`. -/
theorem select_empty_kb_returns :
    getLargestQueryContext [] = none ∧
    selectContextByPossibility asciiTables [] (js "hi") = none ∧
    selectContextByPossibility asciiTables [] (js "zzz nonsense") = none :=
  ⟨rfl, select_nil asciiTables (js "hi"), select_nil asciiTables (js "zzz nonsense")⟩

/-- C13, amended: on the empty knowledge base, for every input,
`getLargestQueryContext` and `selectContextByPossibility` return `undefined`
and raise no error; `getResponseFromContext` then raises a `TypeError` when it
reads `Conversation` of the undefined context, and returns no reply. -/
theorem empty_kb_type_error (uni : Str → Str) (g : Rand) (k : Nat) (userInput : Str) :
    getLargestQueryContext [] = none ∧
    selectContextByPossibility uni [] userInput = none ∧
    choosePair uni [] g k userInput = Except.error JsError.typeError ∧
    getResponseFromContext uni [] g k userInput = Except.error JsError.typeError := by
  have hsel := select_nil uni userInput
  have hpair : choosePair uni [] g k userInput = Except.error JsError.typeError := by
    unfold choosePair
    rw [hsel]
  refine ⟨rfl, hsel, hpair, ?_⟩
  unfold getResponseFromContext
  rw [hpair]

theorem choosePair_empty (uni : Str → Str) (kb : List ContextEntry) (entry : ContextEntry)
    (userInput : Str)
    (hSel : selectContextByPossibility uni kb userInput = some entry)
    (hEmpty : entry.Conversation = []) (g : Rand) (k : Nat) :
    choosePair uni kb g k userInput = Except.ok (none, k + 1) := by
  rw [choosePair_random uni kb entry userInput hSel
    (Or.inr (by rw [hEmpty]; intro p hp; cases hp)) g k]
  unfold randomPair
  rw [hEmpty]
  rfl

theorem possibility_why_silent :
    possibility asciiTables (js "why?") silentEntry < 1 / 2 := by
  rw [possibility_eq_div asciiTables _ silentEntry 0 1 (by decide) (by decide) (by decide)]
  norm_num

theorem select_why_silent :
    selectContextByPossibility asciiTables [silentEntry] (js "why?") = some silentEntry :=
  select_fallback_largest_at asciiTables [] [] silentEntry (js "why?")
    (Or.inl (by decide))
    (by
      intro c hc
      simp only [List.nil_append, List.mem_singleton] at hc
      rw [hc]
      exact possibility_why_silent)
    (by decide) (by decide)

/-- C14, counterexample: the entry `silentEntry` has no pair and is selected for
the question `"why?"`; the pair-selection step raises no error: it takes a
draw, reads `Conversation[0]` and its result is `undefined`. -/
theorem empty_conversation_not_detected :
    isQuestion (js "why?") = true ∧
    silentEntry.Conversation = [] ∧
    selectContextByPossibility asciiTables [silentEntry] (js "why?") = some silentEntry ∧
    choosePair asciiTables [silentEntry] (constRand 1 1 (by decide)) 0 (js "why?") =
      Except.ok (none, 1) :=
  ⟨by decide, rfl, select_why_silent,
    choosePair_empty asciiTables [silentEntry] silentEntry (js "why?") select_why_silent rfl
      (constRand 1 1 (by decide)) 0⟩

/-- C14, amended: for every input, question or not, when the `Conversation` of
the selected entry is empty the pair-selection step raises no error: it takes
one draw, reads `Conversation[0]` out of bounds and gets `undefined`;
`getResponseFromContext` then raises a `TypeError` when it reads `Answer` of the
undefined pair, and no reply string is returned. -/
theorem empty_conversation_type_error (uni : Str → Str) (kb : List ContextEntry)
    (entry : ContextEntry) (userInput : Str)
    (hSel : selectContextByPossibility uni kb userInput = some entry)
    (hEmpty : entry.Conversation = []) (g : Rand) (k : Nat) :
    findBestConversationPair uni entry userInput = (none, none) ∧
    choosePair uni kb g k userInput = Except.ok (none, k + 1) ∧
    getResponseFromContext uni kb g k userInput = Except.error JsError.typeError := by
  have hpair := choosePair_empty uni kb entry userInput hSel hEmpty g k
  refine ⟨?_, hpair, ?_⟩
  · unfold findBestConversationPair
    rw [hEmpty]
    rfl
  · unfold getResponseFromContext
    rw [hpair]

/-- Witness of C14 as amended: the question `"why?"` on the knowledge base
`[silentEntry]`. -/
theorem empty_conversation_type_error_witness :
    selectContextByPossibility asciiTables [silentEntry] (js "why?") = some silentEntry ∧
    silentEntry.Conversation = [] ∧
    findBestConversationPair asciiTables silentEntry (js "why?") = (none, none) ∧
    choosePair asciiTables [silentEntry] (constRand 1 1 (by decide)) 0 (js "why?") =
      Except.ok (none, 1) ∧
    getResponseFromContext asciiTables [silentEntry] (constRand 1 1 (by decide)) 0
      (js "why?") = Except.error JsError.typeError :=
  ⟨select_why_silent, rfl,
    empty_conversation_type_error asciiTables [silentEntry] silentEntry (js "why?")
      select_why_silent rfl (constRand 1 1 (by decide)) 0⟩

/-! ## Totality of the bigram generation -/

/-- C17: at the seed `"constructor hello"` the function `buildMarkovModel`
raises a `TypeError`, and so does `generateDynamicResponse`; the same happens at
the seed `"__proto__ x"`. The word `"constructor"` names a property that the
object literal `model` inherits, so `model[word]` is truthy, no array is
stored and `model[word].push` is not a function. -/
theorem buildMarkovModel_inherited (uni : Str → Str) (g : Rand) (k : Nat) :
    buildMarkovModel uni (js "constructor hello") = Except.error JsError.typeError ∧
    generateDynamicResponse uni g k (js "constructor hello") =
      Except.error JsError.typeError ∧
    buildMarkovModel uni (js "__proto__ x") = Except.error JsError.typeError ∧
    generateDynamicResponse uni g k (js "__proto__ x") = Except.error JsError.typeError :=
  ⟨rfl, rfl, rfl, rfl⟩

/-! ## Entries with an empty query -/

theorem includes_nil (s : Str) : includes s [] = true :=
  (includes_iff s []).mpr List.nil_infix

theorem possibility_le_one (uni : Str → Str) (userInput : Str) (c : ContextEntry) :
    possibility uni userInput c ≤ 1 := by
  unfold possibility
  simp only []
  split
  · exact le_rfl
  · have hpos : 0 < (splitWs (normalizeText uni c.Query)).length :=
      List.length_pos.mpr (splitWs_ne_nil _)
    rw [div_le_one (by exact_mod_cast hpos)]
    exact_mod_cast List.length_filter_le _ _

theorem possibility_of_empty_query (uni : Str → Str) (userInput : Str) (c : ContextEntry)
    (h : normalizeText uni c.Query = []) : possibility uni userInput c = 1 := by
  apply possibility_eq_one
  rw [h]
  exact includes_nil _

theorem possibility_tell_weather :
    possibility asciiTables (js "tell me") weatherEntry < 1 := by
  rw [possibility_eq_div asciiTables _ weatherEntry 0 1 (by decide) (by decide) (by decide)]
  norm_num

/-- C18, counterexample: the query `"?!"` of `blankEntry` is empty after
normalization, its score for the input `"tell me"` is 1 and not 0, and the entry
is selected through the threshold. -/
theorem empty_query_scores_one :
    normalizeText asciiTables blankEntry.Query = [] ∧
    possibility asciiTables (js "tell me") blankEntry = 1 ∧
    possibility asciiTables (js "tell me") blankEntry ≠ 0 ∧
    selectContextByPossibility asciiTables [weatherEntry, blankEntry] (js "tell me") =
      some blankEntry := by
  have h1 : possibility asciiTables (js "tell me") blankEntry = 1 :=
    possibility_of_empty_query asciiTables _ blankEntry (by decide)
  refine ⟨by decide, h1, by rw [h1]; norm_num, ?_⟩
  exact select_first_maximum_at asciiTables [weatherEntry] [] blankEntry (js "tell me")
    (Or.inl (by decide))
    (by
      intro c hc
      rw [List.mem_singleton] at hc
      rw [hc, h1]
      exact possibility_tell_weather)
    (by intro c hc; cases hc)
    (by rw [h1]; norm_num)

/-- C18, amended: for every input, an entry whose `Query` is empty after
normalization is given the score 1, the empty string being a substring of
every normalized input; the score reaches the threshold 0.5, and the entry is
the selected one when the greeting override does not apply and every entry
before it scores below 1. -/
theorem empty_query_selected (uni : Str → Str) (pre post : List ContextEntry)
    (e : ContextEntry) (userInput : Str)
    (hQuery : normalizeText uni e.Query = [])
    (hNo : isGreeting uni userInput = false ∨
      ∀ c ∈ pre ++ e :: post, normalizeText uni c.Query ≠ js "greetings")
    (hpre : ∀ c ∈ pre, possibility uni userInput c < 1) :
    possibility uni userInput e = 1 ∧
    (1 : ℚ) / 2 ≤ possibility uni userInput e ∧
    selectContextByPossibility uni (pre ++ e :: post) userInput = some e := by
  have h1 := possibility_of_empty_query uni userInput e hQuery
  refine ⟨h1, by rw [h1]; norm_num, ?_⟩
  apply select_first_maximum_at uni pre post e userInput hNo
  · intro c hc
    rw [h1]
    exact hpre c hc
  · intro c _
    rw [h1]
    exact possibility_le_one uni userInput c
  · rw [h1]
    norm_num

/-- Witness of C18 as amended: `blankEntry` after `weatherEntry`, for the input
`"tell me"`. -/
theorem empty_query_selected_witness :
    normalizeText asciiTables blankEntry.Query = [] ∧
    isGreeting asciiTables (js "tell me") = false ∧
    (∀ c ∈ [weatherEntry], possibility asciiTables (js "tell me") c < 1) ∧
    possibility asciiTables (js "tell me") blankEntry = 1 ∧
    (1 : ℚ) / 2 ≤ possibility asciiTables (js "tell me") blankEntry ∧
    selectContextByPossibility asciiTables ([weatherEntry] ++ blankEntry :: [newsEntry])
      (js "tell me") = some blankEntry :=
  have hpre : ∀ c ∈ [weatherEntry], possibility asciiTables (js "tell me") c < 1 := by
    intro c hc
    rw [List.mem_singleton] at hc
    rw [hc]
    exact possibility_tell_weather
  ⟨by decide, by decide, hpre,
    empty_query_selected asciiTables [weatherEntry] [newsEntry] blankEntry (js "tell me")
      (by decide) (Or.inl (by decide)) hpre⟩

/-! ## The bound of the walk -/

theorem walk_bound (uni : Str → Str) (model : Model) (g : Rand) :
    ∀ (n k : Nat) (response response1 : List (Option Str)) (k1 : Nat),
      walk uni model g n k response = Except.ok (response1, k1) →
      response1.length ≤ response.length + n ∧ k ≤ k1 ∧ k1 ≤ k + n := by
  intro n
  induction n with
  | zero =>
    intro k response response1 k1 h
    simp only [walk, Except.ok.injEq, Prod.mk.injEq] at h
    obtain ⟨h1, h2⟩ := h
    subst h1 h2
    exact ⟨le_rfl, le_rfl, le_rfl⟩
  | succ n ih =>
    intro k response response1 k1 h
    unfold walk at h
    split at h
    · split at h
      · have := ih _ _ _ _ h
        rw [List.length_append, List.length_singleton] at this
        omega
      · have := ih _ _ _ _ h
        rw [List.length_append, List.length_singleton] at this
        omega
      · simp only [Except.ok.injEq, Prod.mk.injEq] at h
        obtain ⟨h1, h2⟩ := h
        subst h1 h2
        omega
    · cases h

theorem generate_a_b_a (uni : Str → Str) (g : Rand) (k : Nat) :
    generateDynamicResponse uni g k (js "a b a") = Except.ok (js "a b a.", k + 2) := by
  have hbuild : buildMarkovModel uni (js "a b a") =
      Except.ok [(js "a", [js "b"]), (js "b", [js "a"])] := rfl
  have hwords : splitWs (js "a b a") = [js "a", js "b", js "a"] := rfl
  have hpropA : getProp [(js "a", [js "b"]), (js "b", [js "a"])] (toLowerCase uni (js "a")) =
      Lookup.own [js "b"] := rfl
  have hpropB : getProp [(js "a", [js "b"]), (js "b", [js "a"])] (toLowerCase uni (js "b")) =
      Lookup.own [js "a"] := rfl
  unfold generateDynamicResponse
  rw [hbuild]
  simp only [hwords, List.length_cons, List.length_nil, List.head?_cons]
  have hwalk : walk uni [(js "a", [js "b"]), (js "b", [js "a"])] g 2 k [some (js "a")] =
      Except.ok ([some (js "a"), some (js "b"), some (js "a")], k + 2) := by
    have hlast1 : [some (js "a")].getLast? = some (some (js "a")) := rfl
    have hlast2 : ([some (js "a")] ++ [some (js "b")]).getLast? = some (some (js "b")) := rfl
    have hget1 : [js "b"].get? 0 = some (js "b") := rfl
    have hget2 : [js "a"].get? 0 = some (js "a") := rfl
    unfold walk
    simp only [hlast1, hpropA, List.length_singleton, pick_one, hget1]
    unfold walk
    simp only [hlast2, hpropB, List.length_singleton, pick_one, hget2]
    rfl
  rw [show 0 + 1 + 1 + 1 - 1 = 2 from rfl, hwalk]
  rfl

theorem walk_count (uni : Str → Str) (model : Model) (g : Rand) :
    ∀ (n k : Nat) (response response1 : List (Option Str)) (k1 : Nat),
      walk uni model g n k response = Except.ok (response1, k1) →
      response1.length + k = response.length + k1 := by
  intro n
  induction n with
  | zero =>
    intro k response response1 k1 h
    simp only [walk, Except.ok.injEq, Prod.mk.injEq] at h
    obtain ⟨h1, h2⟩ := h
    subst h1 h2
    rfl
  | succ n ih =>
    intro k response response1 k1 h
    unfold walk at h
    split at h
    · split at h
      · have := ih _ _ _ _ h
        rw [List.length_append, List.length_singleton] at this
        omega
      · have := ih _ _ _ _ h
        rw [List.length_append, List.length_singleton] at this
        omega
      · simp only [Except.ok.injEq, Prod.mk.injEq] at h
        obtain ⟨h1, h2⟩ := h
        subst h1 h2
        rfl
    · cases h

/-- The result of `generateDynamicResponse` is the array `response` joined by
spaces, with `"."` after it. -/
theorem generateDynamicResponse_eq_join (uni : Str → Str) (g : Rand) (k : Nat) (seed : Str) :
    generateDynamicResponse uni g k seed =
      match responseArray uni g k seed with
      | Except.error e => Except.error e
      | Except.ok (response, k1) => Except.ok (joinSpace response ++ [46], k1) := by
  unfold generateDynamicResponse responseArray
  cases buildMarkovModel uni seed with
  | error e => rfl
  | ok model => rfl

theorem responseArray_bound (uni : Str → Str) (g : Rand) (k : Nat) (seed : Str)
    (response : List (Option Str)) (k1 : Nat)
    (h : responseArray uni g k seed = Except.ok (response, k1)) :
    response.length ≤ (splitWs seed).length ∧
      k1 + 1 = k + response.length ∧ k1 ≤ k + ((splitWs seed).length - 1) := by
  unfold responseArray at h
  cases hb : buildMarkovModel uni seed with
  | error e => rw [hb] at h; cases h
  | ok model =>
    rw [hb] at h
    simp only [] at h
    have hbound := walk_bound uni model g _ _ _ _ _ h
    have hcount := walk_count uni model g _ _ _ _ _ h
    have hpos : 0 < (splitWs seed).length := List.length_pos.mpr (splitWs_ne_nil seed)
    rw [List.length_singleton] at hbound hcount
    omega

theorem responseArray_a_b_a (uni : Str → Str) (g : Rand) (k : Nat) :
    responseArray uni g k (js "a b a") =
      Except.ok ([some (js "a"), some (js "b"), some (js "a")], k + 2) := by
  have hbuild : buildMarkovModel uni (js "a b a") =
      Except.ok [(js "a", [js "b"]), (js "b", [js "a"])] := rfl
  have hwords : splitWs (js "a b a") = [js "a", js "b", js "a"] := rfl
  have hpropA : getProp [(js "a", [js "b"]), (js "b", [js "a"])] (toLowerCase uni (js "a")) =
      Lookup.own [js "b"] := rfl
  have hpropB : getProp [(js "a", [js "b"]), (js "b", [js "a"])] (toLowerCase uni (js "b")) =
      Lookup.own [js "a"] := rfl
  unfold responseArray
  rw [hbuild]
  simp only [hwords, List.length_cons, List.length_nil, List.head?_cons]
  have hlast1 : [some (js "a")].getLast? = some (some (js "a")) := rfl
  have hlast2 : ([some (js "a")] ++ [some (js "b")]).getLast? = some (some (js "b")) := rfl
  have hget1 : [js "b"].get? 0 = some (js "b") := rfl
  have hget2 : [js "a"].get? 0 = some (js "a") := rfl
  rw [show 0 + 1 + 1 + 1 - 1 = 2 from rfl]
  unfold walk
  simp only [hlast1, hpropA, List.length_singleton, pick_one, hget1]
  unfold walk
  simp only [hlast2, hpropB, List.length_singleton, pick_one, hget2]
  rfl

/-- C19: bounded walk. For every seed text and every random source the call
of `generateDynamicResponse` ends, and its result is the array `response` of
the emitted words, joined. Either the loop is left with an array `response` of
at most as many elements as the seed has words, after exactly
`response.length - 1` draws, which is at most `words.length - 1`; or a
`TypeError` is raised, which happens only when a word of the seed is, in lower
case, a property name inherited from `Object.prototype`. For the seed
`"a b a"`, whose model has the cycle `a → b → a`, the emitted words are `a`,
`b`, `a` after two draws and the result is `"a b a."`. -/
theorem bounded_walk (uni : Str → Str) (g : Rand) (k : Nat) (seed : Str) :
    (generateDynamicResponse uni g k seed =
      match responseArray uni g k seed with
      | Except.error e => Except.error e
      | Except.ok (response, k1) => Except.ok (joinSpace response ++ [46], k1)) ∧
    ((∃ response k1,
        responseArray uni g k seed = Except.ok (response, k1) ∧
        response.length ≤ (splitWs seed).length ∧
        k1 + 1 = k + response.length ∧ k1 ≤ k + ((splitWs seed).length - 1)) ∨
      (responseArray uni g k seed = Except.error JsError.typeError ∧
        ∃ w ∈ splitWs seed, toLowerCase uni w ∈ protoKeys ∨
          toLowerCase uni (toLowerCase uni w) ∈ protoKeys)) ∧
    responseArray uni g k (js "a b a") =
      Except.ok ([some (js "a"), some (js "b"), some (js "a")], k + 2) ∧
    generateDynamicResponse uni g k (js "a b a") = Except.ok (js "a b a.", k + 2) := by
  refine ⟨generateDynamicResponse_eq_join uni g k seed, ?_, responseArray_a_b_a uni g k,
    generate_a_b_a uni g k⟩
  cases hres : responseArray uni g k seed with
  | ok r =>
    obtain ⟨response, k1⟩ := r
    obtain ⟨h1, h2, h3⟩ := responseArray_bound uni g k seed response k1 hres
    exact Or.inl ⟨response, k1, rfl, h1, h2, h3⟩
  | error e =>
    cases e
    refine Or.inr ⟨rfl, ?_⟩
    by_contra hcon
    have hclean : ∀ w ∈ splitWs seed, toLowerCase uni w ∉ protoKeys ∧
        toLowerCase uni (toLowerCase uni w) ∉ protoKeys := by
      intro w hw
      constructor
      · intro hmem
        exact hcon ⟨w, hw, Or.inl hmem⟩
      · intro hmem
        exact hcon ⟨w, hw, Or.inr hmem⟩
    obtain ⟨ws, k1, harr, _⟩ := generateDynamicResponse_clean uni g k seed hclean
    rw [hres] at harr
    cases harr

/-! ## Inputs that are empty after normalization -/

theorem possibility_of_empty_input (uni : Str → Str) (userInput : Str)
    (h : normalizeText uni userInput = []) (c : ContextEntry) :
    possibility uni userInput c = 1 := by
  unfold possibility
  simp only []
  rw [h]
  split
  · rfl
  · have hsplit : splitWs ([] : Str) = [[]] := rfl
    have hfilter : (splitWs (normalizeText uni c.Query)).filter (fun token =>
        (splitWs ([] : Str)).any (fun t => t == token || includes t token || includes token t)) =
        splitWs (normalizeText uni c.Query) := by
      rw [List.filter_eq_self]
      intro token _
      rw [hsplit]
      simp [includes_nil]
    rw [hfilter]
    have hpos : 0 < (splitWs (normalizeText uni c.Query)).length :=
      List.length_pos.mpr (splitWs_ne_nil _)
    exact div_self (Nat.cast_ne_zero.mpr (by omega))

theorem isGreeting_of_empty_input (uni : Str → Str) (userInput : Str)
    (h : normalizeText uni userInput = []) : isGreeting uni userInput = false := by
  unfold isGreeting
  rw [h]
  decide

/-- C20: empty-signal input. For every non-empty knowledge base and every input
that is empty after normalization, every entry has the score 1, the greeting
override does not apply, and `selectContextByPossibility` returns the first
entry of the knowledge base. -/
theorem empty_input_selects_first (uni : Str → Str) (kb : List ContextEntry)
    (userInput : Str) (hne : kb ≠ [])
    (hEmpty : normalizeText uni userInput = []) :
    (∀ c, possibility uni userInput c = 1) ∧
    isGreeting uni userInput = false ∧
    selectContextByPossibility uni kb userInput = kb.head? := by
  have hone := possibility_of_empty_input uni userInput hEmpty
  have hg := isGreeting_of_empty_input uni userInput hEmpty
  refine ⟨hone, hg, ?_⟩
  cases kb with
  | nil => exact absurd rfl hne
  | cons e post =>
    have h := select_first_maximum_at uni [] post e userInput (Or.inl hg)
      (fun c hc => by cases hc)
      (fun c _ => by rw [hone c, hone e])
      (by rw [hone e]; norm_num)
    rw [List.nil_append] at h
    rw [h, List.head?_cons]

/-- Witness of C20: the input `"???"` on `demoKb` selects its first entry,
which has one pair, and not the first entry with two pairs. -/
theorem empty_input_selects_first_witness :
    demoKb ≠ [] ∧
    normalizeText asciiTables (js "???") = [] ∧
    (∀ c, possibility asciiTables (js "???") c = 1) ∧
    isGreeting asciiTables (js "???") = false ∧
    selectContextByPossibility asciiTables demoKb (js "???") = demoKb.head? ∧
    demoKb.head? = some weatherEntry ∧
    getLargestQueryContext demoKb = some greetingsEntry :=
  have h := empty_input_selects_first asciiTables demoKb (js "???") (by decide) (by decide)
  ⟨by decide, by decide, h.1, h.2.1, h.2.2, rfl, by decide⟩

end Velos
